import Mathlib

/-!
A shallow embedding of the joinjs result-set mapper (src/dist/index.js).

JavaScript values appearing in the mapper are modelled by `JVal`:
rows map column names to scalar values, mapped objects are insertion-ordered
association lists of fields, and collection fields hold arrays of mapped
objects.  JavaScript truthiness, strict equality (`!==`), `null` vs
`undefined` (absent key), and the in-place mutation of the shared mapping
definitions (lazy property inference, idProperty column defaulting) are
modelled explicitly.  Mutation of the `maps` array entries is modelled by
threading the list of mapping definitions through every function.  The
unbounded recursion of the JavaScript functions over the (possibly cyclic)
mapping configuration is modelled with a fuel parameter; `none` means the
computation did not finish (exhausted fuel) or hit a condition under which
the JavaScript code would throw a TypeError (e.g. a missing mapId).
-/

namespace JoinJS

/-- JavaScript values as used by the mapper: `null`, `undefined`, scalars,
mapped objects (insertion-ordered field lists) and arrays of mapped objects
(the only arrays the mapper ever builds are collections of objects). -/
inductive JVal where
  | null : JVal
  | undef : JVal
  | str : String → JVal
  | num : Int → JVal
  | bool : Bool → JVal
  | obj : List (String × JVal) → JVal
  | arr : List (List (String × JVal)) → JVal

/-- A mapped object: an insertion-ordered list of fields. -/
abbrev JObj := List (String × JVal)

/-- A database row: column name to value.  An absent column reads as
`JVal.undef`, exactly as an absent key on a JavaScript object. -/
abbrev Row := List (String × JVal)

/-- JavaScript truthiness of a value. -/
def truthy : JVal → Bool
  | .null => false
  | .undef => false
  | .str s => s ≠ ""
  | .num n => n ≠ 0
  | .bool b => b
  | .obj _ => true
  | .arr _ => true

/-- Is the value a scalar (not an object and not an array)? -/
def isScalar : JVal → Bool
  | .obj _ => false
  | .arr _ => false
  | _ => true

def JVal.isNull : JVal → Bool
  | .null => true
  | _ => false

/-- JavaScript strict equality `===` as used by the identity predicate.
On scalars it is value equality; objects and arrays are compared by
reference, and two separately materialized objects are never the same
reference, so they compare unequal here. -/
def strictEq : JVal → JVal → Bool
  | .null, .null => true
  | .undef, .undef => true
  | .str a, .str b => a == b
  | .num a, .num b => a == b
  | .bool a, .bool b => a == b
  | _, _ => false

/-- Property read `o[k]`: first binding wins; absent key yields `undefined`. -/
def objGet : JObj → String → JVal
  | [], _ => .undef
  | (k', v') :: rest, k => if k' = k then v' else objGet rest k

/-- Property write `o[k] = v`: an existing key keeps its position, a new key
is appended (JavaScript insertion order for string keys). -/
def objSet : JObj → String → JVal → JObj
  | [], k, v => [(k, v)]
  | (k', v') :: rest, k, v =>
      if k' = k then (k, v) :: rest else (k', v') :: objSet rest k v

/-- One entry of `idProperty` or `properties`: either a bare string or an
object `{name, column?}`. -/
inductive PropEntry where
  | str : String → PropEntry
  | obj : String → Option String → PropEntry
deriving DecidableEq, Repr

/-- The `idProperty` field of a mapping definition: absent, a single entry,
or an array of entries. -/
inductive IdSpec where
  | single : PropEntry → IdSpec
  | array : List PropEntry → IdSpec
deriving DecidableEq, Repr

/-- A normalized (name, column) pair as produced by `getIdProperty`. -/
structure FieldPair where
  name : String
  column : String
deriving DecidableEq, Repr

/-- An `associations` or `collections` entry: `{name, mapId, columnPrefix}`.
(The source calls the third field `columnPrefix`; it is shortened here.) -/
structure AssocSpec where
  name : String
  mapId : String
  columnPfx : String
deriving DecidableEq, Repr

/-- One mapping definition (a "result map"). `createNew` is the optional
factory; it is modelled by the (fixed) object the factory returns. -/
structure ResultMap where
  mapId : String
  idProperty : Option IdSpec := none
  properties : Option (List PropEntry) := none
  associations : List AssocSpec := []
  collections : List AssocSpec := []
  createNew : Option JObj := none

abbrev Maps := List ResultMap

/-- `maps.find(m => m.mapId === mapId)`. -/
def findMap (maps : Maps) (mapId : String) : Option ResultMap :=
  maps.find? (fun m => m.mapId == mapId)

/-- In JavaScript the entry found by `findMap` is mutated in place; here the
first entry with the given `mapId` is replaced by its updated version. -/
def setMap : Maps → String → ResultMap → Maps
  | [], _, _ => []
  | m :: rest, mid, rm =>
      if m.mapId == mid then rm :: rest else m :: setMap rest mid rm

/-- JavaScript truthiness of the `idProperty` field (`!resultMap.idProperty`):
absent (`undefined`) and the empty string are falsy; objects and arrays are
truthy. -/
def idSpecFalsy : Option IdSpec → Bool
  | none => true
  | some (.single (.str s)) => s == ""
  | some (.single (.obj _ _)) => false
  | some (.array _) => false

/-- Normalization of one idProperty entry, returning the (name, column) pair
together with the entry as it is left in the definition: a bare string is
converted to a fresh pair (no mutation), while an object entry with a falsy
`column` gets `column = name` written back onto it. -/
def normIdEntry : PropEntry → FieldPair × PropEntry
  | .str s => (⟨s, s⟩, .str s)
  | .obj n none => (⟨n, n⟩, .obj n (some n))
  | .obj n (some c) =>
      if c = "" then (⟨n, n⟩, .obj n (some n)) else (⟨n, c⟩, .obj n (some c))

/-- `getIdProperty(resultMap)` from the source.  Returns the normalized list
of (name, column) pairs and the definition as left after the in-place
`idProperty.column = idProperty.name` defaulting. -/
def getIdProperty (rm : ResultMap) : List FieldPair × ResultMap :=
  if idSpecFalsy rm.idProperty then ([⟨"id", "id"⟩], rm)
  else
    match rm.idProperty with
    | none => ([⟨"id", "id"⟩], rm)
    | some (.single p) =>
        let r := normIdEntry p
        ([r.1], { rm with idProperty := some (.single r.2) })
    | some (.array l) =>
        let r := l.map normIdEntry
        (r.map Prod.fst, { rm with idProperty := some (.array (r.map Prod.snd)) })

/-- `createMappedObject(resultMap)`: the factory result, or an empty object. -/
def createMappedObject (rm : ResultMap) : JObj :=
  rm.createNew.getD []

/-- Lazy property inference (`Object.keys(result)` filtered by
`startsWith(columnPrefix)`, stripped).  `String.replace` in the source
removes the first occurrence, which for a column passing the `startsWith`
test is exactly the leading occurrence, so the result is the column name
with the leading `columnPrefix` removed.  The test and the strip are
modelled on the character sequence of the strings. -/
def inferProps (result : Row) (pfx : String) : List PropEntry :=
  (result.map Prod.fst).filterMap
    (fun k => if List.isPrefixOf pfx.data k.data
      then some (PropEntry.str ⟨k.data.drop pfx.data.length⟩) else none)

/-- Per-use normalization of a `properties` entry inside
`injectResultInObject`: string shorthand, and
`property.column ? property.column : property.name` (truthiness, so an
empty-string column also falls back to the name).  This one does not mutate
the entry. -/
def normPropLocal : PropEntry → String × String
  | .str s => (s, s)
  | .obj n none => (n, n)
  | .obj n (some c) => if c = "" then (n, n) else (n, c)

/-- The id-copy phase: for each identity field, copy the row value unless the
object already holds a truthy value there (`if (!mappedObject[field.name])`). -/
def copyIdFields (idp : List FieldPair) (result : Row) (pfx : String) (o : JObj) : JObj :=
  idp.foldl
    (fun o fp =>
      if truthy (objGet o fp.name) then o
      else objSet o fp.name (objGet result (pfx ++ fp.column))) o

/-- The scalar-property phase: for each property, copy the row value unless
the object already holds a truthy value there. -/
def copyProperties (ps : List PropEntry) (result : Row) (pfx : String) (o : JObj) : JObj :=
  ps.foldl
    (fun o p =>
      let np := normPropLocal p
      if truthy (objGet o np.1) then o
      else objSet o np.1 (objGet result (pfx ++ np.2))) o

/-- The predicate object built by `injectResultInCollection` (a reduce into a
fresh object, so later identity fields with the same name overwrite). -/
def buildPredicate (idp : List FieldPair) (result : Row) (pfx : String) : JObj :=
  idp.foldl (fun acc fp => objSet acc fp.name (objGet result (pfx ++ fp.column))) []

/-- `mappedCollection.find(...)` with the predicate match
(`item[k] !== predicate[k]` for each key), returning the index as well. -/
def findMatch (predicate : JObj) : List JObj → Option (Nat × JObj)
  | [] => none
  | o :: rest =>
      if predicate.all (fun kv => strictEq (objGet o kv.1) kv.2) then some (0, o)
      else (findMatch predicate rest).map (fun p => (p.1 + 1, p.2))

mutual

/-- `injectResultInObject(result, mappedObject, maps, mapId, columnPrefix)`.
Returns the updated object and the updated mapping definitions. -/
def injectResultInObject : Nat → Row → JObj → Maps → String → String → Option (JObj × Maps)
  | 0, _, _, _, _, _ => none
  | fuel+1, result, mappedObject, maps, mapId, pfx =>
    match findMap maps mapId with
    | none => none
    | some rm0 =>
      -- Automatically add properties to map (written back onto the definition)
      let rm := if rm0.properties.isNone
        then { rm0 with properties := some (inferProps result pfx) } else rm0
      let maps := setMap maps mapId rm
      let pr := getIdProperty rm
      let maps := setMap maps mapId pr.2
      let o := copyIdFields pr.1 result pfx mappedObject
      let o := copyProperties (rm.properties.getD []) result pfx o
      match injectAssociations fuel result rm.associations o maps with
      | none => none
      | some (o, maps) => injectCollections fuel result rm.collections o maps

/-- The `associations.forEach` loop. -/
def injectAssociations : Nat → Row → List AssocSpec → JObj → Maps → Option (JObj × Maps)
  | 0, _, _, _, _ => none
  | _+1, _, [], o, maps => some (o, maps)
  | fuel+1, result, a :: rest, o, maps =>
    match injectAssociation fuel result a o maps with
    | none => none
    | some (o, maps) => injectAssociations fuel result rest o maps

/-- The body of the `associations.forEach` loop for one association. -/
def injectAssociation : Nat → Row → AssocSpec → JObj → Maps → Option (JObj × Maps)
  | 0, _, _, _, _ => none
  | fuel+1, result, a, mappedObject, maps =>
    let associatedObject := objGet mappedObject a.name
    if truthy associatedObject then
      match associatedObject with
      | .obj ao =>
        match injectResultInObject fuel result ao maps a.mapId a.columnPfx with
        | none => none
        | some (ao, maps) => some (objSet mappedObject a.name (.obj ao), maps)
      | _ => none  -- strict mode: assigning to properties of a primitive throws
    else
      match findMap maps a.mapId with
      | none => none
      | some arm =>
        let pr := getIdProperty arm
        let maps := setMap maps a.mapId pr.2
        let mappedObject := objSet mappedObject a.name .null
        if pr.1.all (fun fp => !(objGet result (a.columnPfx ++ fp.column)).isNull) then
          let ao := createMappedObject pr.2
          match injectResultInObject fuel result ao maps a.mapId a.columnPfx with
          | none => none
          | some (ao, maps) => some (objSet mappedObject a.name (.obj ao), maps)
        else
          some (mappedObject, maps)

/-- The `collections.forEach` loop. -/
def injectCollections : Nat → Row → List AssocSpec → JObj → Maps → Option (JObj × Maps)
  | 0, _, _, _, _ => none
  | _+1, _, [], o, maps => some (o, maps)
  | fuel+1, result, c :: rest, o, maps =>
    match injectCollectionField fuel result c o maps with
    | none => none
    | some (o, maps) => injectCollections fuel result rest o maps

/-- The body of the `collections.forEach` loop for one collection field. -/
def injectCollectionField : Nat → Row → AssocSpec → JObj → Maps → Option (JObj × Maps)
  | 0, _, _, _, _ => none
  | fuel+1, result, c, mappedObject, maps =>
    let cur := objGet mappedObject c.name
    if truthy cur then
      match cur with
      | .arr items =>
        match injectResultInCollection fuel result items maps c.mapId c.columnPfx with
        | none => none
        | some (items, maps) => some (objSet mappedObject c.name (.arr items), maps)
      | _ => none  -- a truthy non-array field: `.find` on it throws
    else
      match injectResultInCollection fuel result [] maps c.mapId c.columnPfx with
      | none => none
      | some (items, maps) => some (objSet mappedObject c.name (.arr items), maps)

/-- `injectResultInCollection(result, mappedCollection, maps, mapId,
columnPrefix)`.  Returns the updated collection and definitions. -/
def injectResultInCollection : Nat → Row → List JObj → Maps → String → String → Option (List JObj × Maps)
  | 0, _, _, _, _, _ => none
  | fuel+1, result, mappedCollection, maps, mapId, pfx =>
    match findMap maps mapId with
    | none => none
    | some rm =>
      let pr := getIdProperty rm
      let maps := setMap maps mapId pr.2
      let predicate := buildPredicate pr.1 result pfx
      let isIdPropertyNotNull :=
        pr.1.all (fun fp => !(objGet result (pfx ++ fp.column)).isNull)
      if isIdPropertyNotNull then
        match findMatch predicate mappedCollection with
        | some io =>
          match injectResultInObject fuel result io.2 maps mapId pfx with
          | none => none
          | some (o, maps) => some (mappedCollection.set io.1 o, maps)
        | none =>
          let o := createMappedObject pr.2
          match injectResultInObject fuel result o maps mapId pfx with
          | none => none
          | some (o, maps) => some (mappedCollection ++ [o], maps)
      else
        some (mappedCollection, maps)

end

/-- The `resultSet.forEach` loop of `map`. -/
def mapRows : Nat → List Row → List JObj → Maps → String → String → Option (List JObj × Maps)
  | _, [], coll, maps, _, _ => some (coll, maps)
  | fuel, result :: rest, coll, maps, mapId, pfx =>
    match injectResultInCollection fuel result coll maps mapId pfx with
    | none => none
    | some (coll, maps) => mapRows fuel rest coll maps mapId pfx

/-- `map(resultSet, maps, mapId, columnPrefix)`: the top-level entry point. -/
def map (fuel : Nat) (resultSet : List Row) (maps : Maps) (mapId : String)
    (pfx : String) : Option (List JObj × Maps) :=
  mapRows fuel resultSet [] maps mapId pfx

/-- The `NotFoundError` type: `name` is always "NotFoundError", `message`
defaults to "Not Found" when the constructor argument is `undefined`. -/
structure NotFoundError where
  name : String
  message : String
deriving DecidableEq, Repr

def NotFoundError.make : Option String → NotFoundError
  | none => ⟨"NotFoundError", "Not Found"⟩
  | some m => ⟨"NotFoundError", m⟩

/-- `mapOne(resultSet, maps, mapId, columnPrefix, isRequired)`: returns the
first mapped object, or throws `NotFoundError('EmptyResponse')` when the
collection is empty and `isRequired` (default `true`) is set, or returns
`null` otherwise. -/
def mapOne (fuel : Nat) (resultSet : List Row) (maps : Maps) (mapId : String)
    (pfx : String) (isRequired : Bool) : Option (Except NotFoundError JVal × Maps) :=
  match map fuel resultSet maps mapId pfx with
  | none => none
  | some (mappedCollection, maps) =>
    match mappedCollection with
    | o :: _ => some (.ok (.obj o), maps)
    | [] =>
      if isRequired then some (.error (NotFoundError.make (some "EmptyResponse")), maps)
      else some (.ok .null, maps)

/-! ### Derived descriptions of `getIdProperty` -/

/-- The normalized pairs of `getIdProperty`, as a function of the
`idProperty` field alone. -/
def normIdSpec (s : Option IdSpec) : List FieldPair :=
  if idSpecFalsy s then [⟨"id", "id"⟩]
  else
    match s with
    | none => [⟨"id", "id"⟩]
    | some (.single p) => [(normIdEntry p).1]
    | some (.array l) => l.map (fun p => (normIdEntry p).1)

/-- The `idProperty` field as left behind by `getIdProperty`, as a function
of the `idProperty` field alone. -/
def normIdSpecOut (s : Option IdSpec) : Option IdSpec :=
  if idSpecFalsy s then s
  else
    match s with
    | none => s
    | some (.single p) => some (.single (normIdEntry p).2)
    | some (.array l) => some (.array (l.map (fun p => (normIdEntry p).2)))

theorem getIdProperty_eq (rm : ResultMap) :
    getIdProperty rm =
      (normIdSpec rm.idProperty, { rm with idProperty := normIdSpecOut rm.idProperty }) := by
  obtain ⟨mid, idp, props, assocs, colls, cnew⟩ := rm
  unfold getIdProperty normIdSpec normIdSpecOut
  dsimp only
  by_cases hf : idSpecFalsy idp = true
  · simp [hf]
  · simp only [hf, if_false]
    match idp with
    | none => simp [idSpecFalsy] at hf
    | some (.single p) => simp
    | some (.array l) => simp [List.map_map, Function.comp_def]

theorem normIdEntry_snd_idem (p : PropEntry) :
    normIdEntry (normIdEntry p).2 = normIdEntry p := by
  match p with
  | .str s => rfl
  | .obj n none =>
      simp only [normIdEntry]
      by_cases h : n = "" <;> simp [h]
  | .obj n (some c) =>
      simp only [normIdEntry]
      by_cases h : c = ""
      · subst h
        by_cases hn : n = "" <;> simp [hn, normIdEntry]
      · simp [h, normIdEntry]

theorem idSpecFalsy_normIdSpecOut (s : Option IdSpec) :
    idSpecFalsy (normIdSpecOut s) = idSpecFalsy s := by
  by_cases hf : idSpecFalsy s = true
  · simp [normIdSpecOut, hf]
  · match s with
    | none => simp [idSpecFalsy] at hf
    | some (.single (.str str)) =>
        simp [normIdSpecOut, hf, normIdEntry, idSpecFalsy]
    | some (.single (.obj n c)) =>
        cases c with
        | none => simp [normIdSpecOut, hf, normIdEntry, idSpecFalsy]
        | some c' =>
            by_cases hc : c' = "" <;>
              simp [normIdSpecOut, hf, normIdEntry, hc, idSpecFalsy]
    | some (.array l) => simp [normIdSpecOut, hf, idSpecFalsy]

theorem normIdSpecOut_notFalsy (s : Option IdSpec) (hf : idSpecFalsy s = false) :
    normIdSpecOut s =
      match s with
      | none => s
      | some (.single p) => some (.single (normIdEntry p).2)
      | some (.array l) => some (.array (l.map (fun p => (normIdEntry p).2))) := by
  unfold normIdSpecOut
  rw [hf]
  simp only [Bool.false_eq_true, if_false]
  cases s with
  | none => rfl
  | some v => cases v <;> rfl

theorem normIdSpec_out_idem (s : Option IdSpec) :
    normIdSpec (normIdSpecOut s) = normIdSpec s ∧
    normIdSpecOut (normIdSpecOut s) = normIdSpecOut s := by
  by_cases hf : idSpecFalsy s = true
  · simp [normIdSpecOut, hf]
  · simp only [Bool.not_eq_true] at hf
    match s with
    | none => simp [idSpecFalsy] at hf
    | some (.single p) =>
        rw [normIdSpecOut_notFalsy _ hf]
        have hf' : idSpecFalsy (some (.single (normIdEntry p).2)) = false := by
          rw [show (some (IdSpec.single (normIdEntry p).2)) =
                normIdSpecOut (some (.single p)) from
              (normIdSpecOut_notFalsy _ hf).symm,
            idSpecFalsy_normIdSpecOut]
          exact hf
        simp [normIdSpec, normIdSpecOut, hf, hf', normIdEntry_snd_idem]
    | some (.array l) =>
        rw [normIdSpecOut_notFalsy _ hf]
        simp [normIdSpec, normIdSpecOut, hf, idSpecFalsy, List.map_map,
          Function.comp_def, normIdEntry_snd_idem]

/-! ### Basic lemmas on objects, rows, truthiness -/

theorem objGet_objSet_self (o : JObj) (k : String) (v : JVal) :
    objGet (objSet o k v) k = v := by
  induction o with
  | nil => simp [objSet, objGet]
  | cons kv rest ih =>
      simp only [objSet]
      by_cases h : kv.1 = k
      · simp [h, objGet]
      · simp [h, objGet, ih]

theorem objGet_objSet_ne (o : JObj) (k k' : String) (v : JVal) (h : k ≠ k') :
    objGet (objSet o k v) k' = objGet o k' := by
  induction o with
  | nil => simp [objSet, objGet, h]
  | cons kv rest ih =>
      simp only [objSet]
      by_cases hk : kv.1 = k
      · simp [hk, objGet, h, Ne.symm h]
      · simp only [hk, if_false]
        simp only [objGet]
        by_cases hk' : kv.1 = k' <;> simp [hk', ih]

theorem truthy_not_isNull (v : JVal) (h : truthy v = true) : v.isNull = false := by
  cases v <;> simp_all [truthy, JVal.isNull]

theorem strictEq_scalar_iff (a b : JVal) (ha : isScalar a = true) :
    strictEq a b = true ↔ a = b := by
  cases a <;> cases b <;> simp_all [strictEq, isScalar]

/-! ### `findMap` / `setMap` lemmas -/

theorem findMap_some_mapId (maps : Maps) (mid : String) (rm : ResultMap)
    (h : findMap maps mid = some rm) : rm.mapId = mid := by
  have := List.find?_some h
  simpa using this

theorem findMap_setMap_self (maps : Maps) (mid : String) (rm rm' : ResultMap)
    (h : findMap maps mid = some rm) (hmid : rm'.mapId = mid) :
    findMap (setMap maps mid rm') mid = some rm' := by
  induction maps with
  | nil => simp [findMap] at h
  | cons m rest ih =>
      by_cases hm : m.mapId = mid
      · simp only [setMap, beq_iff_eq, hm, if_pos]
        unfold findMap
        rw [List.find?_cons_of_pos]
        simp [hmid]
      · simp only [setMap, beq_iff_eq, hm, if_false]
        unfold findMap at h ⊢
        rw [List.find?_cons_of_neg _ (by simp [hm])] at h
        rw [List.find?_cons_of_neg _ (by simp [hm])]
        exact ih h

theorem setMap_findMap_self (maps : Maps) (mid : String) (rm : ResultMap)
    (h : findMap maps mid = some rm) : setMap maps mid rm = maps := by
  induction maps with
  | nil => rfl
  | cons m rest ih =>
      by_cases hm : m.mapId = mid
      · unfold findMap at h
        rw [List.find?_cons_of_pos _ (by simp [hm])] at h
        simp only [setMap, beq_iff_eq, hm, if_pos]
        cases h
        rfl
      · unfold findMap at h
        rw [List.find?_cons_of_neg _ (by simp [hm])] at h
        simp only [setMap, beq_iff_eq, hm, if_false]
        rw [ih h]

/-! ### Evolution of the mapping-definition state

During a call the only changes to the shared definitions are the lazy
property-inference write (`none` to `some`) and the in-place idProperty
normalization.  `rmEvolves a b` says `b` is a possible later state of the
definition `a`; `mapsEvolve` lifts it pointwise. -/

def rmEvolves (a b : ResultMap) : Prop :=
  b.mapId = a.mapId ∧ b.associations = a.associations ∧ b.collections = a.collections ∧
  b.createNew = a.createNew ∧
  (b.idProperty = a.idProperty ∨ b.idProperty = normIdSpecOut a.idProperty) ∧
  (b.properties = a.properties ∨ (a.properties = none ∧ ∃ l, b.properties = some l))

def mapsEvolve (a b : Maps) : Prop := List.Forall₂ rmEvolves a b

theorem rmEvolves_refl (a : ResultMap) : rmEvolves a a :=
  ⟨rfl, rfl, rfl, rfl, Or.inl rfl, Or.inl rfl⟩

theorem rmEvolves_trans {a b c : ResultMap} (h1 : rmEvolves a b) (h2 : rmEvolves b c) :
    rmEvolves a c := by
  obtain ⟨m1, a1, c1, n1, i1, p1⟩ := h1
  obtain ⟨m2, a2, c2, n2, i2, p2⟩ := h2
  refine ⟨m2.trans m1, a2.trans a1, c2.trans c1, n2.trans n1, ?_, ?_⟩
  · rcases i1 with h | h <;> rcases i2 with h' | h'
    · exact Or.inl (h'.trans h)
    · exact Or.inr (by rw [h', h])
    · exact Or.inr (h'.trans h)
    · exact Or.inr (by rw [h', h, (normIdSpec_out_idem a.idProperty).2])
  · rcases p1 with h | hp
    · rcases p2 with h' | hp'
      · exact Or.inl (h'.trans h)
      · exact Or.inr ⟨by rw [← h, hp'.1], hp'.2⟩
    · rcases p2 with h' | hp'
      · obtain ⟨hn, l, hl⟩ := hp
        exact Or.inr ⟨hn, l, h'.trans hl⟩
      · obtain ⟨hn, l, hl⟩ := hp
        rw [hl] at hp'
        cases hp'.1

theorem mapsEvolve_refl (a : Maps) : mapsEvolve a a := by
  induction a with
  | nil => exact List.Forall₂.nil
  | cons m rest ih => exact List.Forall₂.cons (rmEvolves_refl m) ih

theorem mapsEvolve_trans {a b c : Maps} (h1 : mapsEvolve a b) (h2 : mapsEvolve b c) :
    mapsEvolve a c := by
  induction h1 generalizing c with
  | nil => cases h2; exact List.Forall₂.nil
  | cons hab h1' ih =>
      cases h2 with
      | cons hbc h2' => exact List.Forall₂.cons (rmEvolves_trans hab hbc) (ih h2')

theorem findMap_evolve {a b : Maps} (h : mapsEvolve a b) (mid : String) :
    (findMap a mid = none → findMap b mid = none) ∧
    (∀ x, findMap a mid = some x → ∃ y, findMap b mid = some y ∧ rmEvolves x y) := by
  induction h with
  | nil => exact ⟨fun _ => rfl, fun x hx => by simp [findMap] at hx⟩
  | cons hab h' ih =>
      rename_i x y l1 l2
      by_cases hx : x.mapId = mid
      · have hy : y.mapId = mid := hab.1.trans hx
        constructor
        · intro hn
          unfold findMap at hn
          rw [List.find?_cons_of_pos _ (by simp [hx])] at hn
          cases hn
        · intro z hz
          unfold findMap at hz ⊢
          rw [List.find?_cons_of_pos _ (by simp [hx])] at hz
          rw [List.find?_cons_of_pos _ (by simp [hy])]
          cases hz
          exact ⟨y, rfl, hab⟩
      · have hy : ¬ y.mapId = mid := fun hc => hx (hab.1.symm.trans hc)
        constructor
        · intro hn
          unfold findMap at hn ⊢
          rw [List.find?_cons_of_neg _ (by simp [hx])] at hn
          rw [List.find?_cons_of_neg _ (by simp [hy])]
          exact ih.1 hn
        · intro z hz
          unfold findMap at hz ⊢
          rw [List.find?_cons_of_neg _ (by simp [hx])] at hz
          rw [List.find?_cons_of_neg _ (by simp [hy])]
          exact ih.2 z hz

theorem setMap_evolves {maps : Maps} {mid : String} {rm rm' : ResultMap}
    (h : findMap maps mid = some rm) (hev : rmEvolves rm rm') :
    mapsEvolve maps (setMap maps mid rm') := by
  induction maps with
  | nil => simp [findMap] at h
  | cons m rest ih =>
      by_cases hm : m.mapId = mid
      · unfold findMap at h
        rw [List.find?_cons_of_pos _ (by simp [hm])] at h
        cases h
        simp only [setMap, beq_iff_eq, hm, if_pos]
        exact List.Forall₂.cons hev (mapsEvolve_refl rest)
      · unfold findMap at h
        rw [List.find?_cons_of_neg _ (by simp [hm])] at h
        simp only [setMap, beq_iff_eq, hm, if_false]
        exact List.Forall₂.cons (rmEvolves_refl m) (ih h)

theorem rmEvolves_getIdProperty (rm : ResultMap) : rmEvolves rm (getIdProperty rm).2 := by
  rw [getIdProperty_eq]
  exact ⟨rfl, rfl, rfl, rfl, Or.inr rfl, Or.inl rfl⟩

theorem rmEvolves_infer (rm : ResultMap) (l : List PropEntry) (h : rm.properties = none) :
    rmEvolves rm { rm with properties := some l } :=
  ⟨rfl, rfl, rfl, rfl, Or.inl rfl, Or.inr ⟨h, l, rfl⟩⟩

/-- Any run of the injection functions only evolves the mapping-definition
state: associations, collections, factories and mapIds never change, the
idProperty entries are at most normalized in place, and `properties` can only
go from unset to set. -/
theorem evolve_funs : ∀ fuel : Nat,
    (∀ result o maps mapId pfx r,
      injectResultInObject fuel result o maps mapId pfx = some r → mapsEvolve maps r.2) ∧
    (∀ result l o maps r,
      injectAssociations fuel result l o maps = some r → mapsEvolve maps r.2) ∧
    (∀ result a o maps r,
      injectAssociation fuel result a o maps = some r → mapsEvolve maps r.2) ∧
    (∀ result l o maps r,
      injectCollections fuel result l o maps = some r → mapsEvolve maps r.2) ∧
    (∀ result c o maps r,
      injectCollectionField fuel result c o maps = some r → mapsEvolve maps r.2) ∧
    (∀ result coll maps mapId pfx r,
      injectResultInCollection fuel result coll maps mapId pfx = some r → mapsEvolve maps r.2) := by
  intro fuel
  induction fuel with
  | zero =>
      refine ⟨?_, ?_, ?_, ?_, ?_, ?_⟩
      · intro result o maps mapId pfx r h; simp [injectResultInObject] at h
      · intro result l o maps r h; simp [injectAssociations] at h
      · intro result a o maps r h; simp [injectAssociation] at h
      · intro result l o maps r h; simp [injectCollections] at h
      · intro result c o maps r h; simp [injectCollectionField] at h
      · intro result coll maps mapId pfx r h; simp [injectResultInCollection] at h
  | succ n ih =>
      obtain ⟨ihO, ihAs, ihA, ihCs, ihC, ihColl⟩ := ih
      refine ⟨?_, ?_, ?_, ?_, ?_, ?_⟩
      · -- injectResultInObject
        intro result o maps mapId pfx r h
        simp only [injectResultInObject] at h
        cases hfind : findMap maps mapId with
        | none => rw [hfind] at h; cases h
        | some rm0 =>
          rw [hfind] at h
          simp only at h
          have hmid0 : rm0.mapId = mapId := findMap_some_mapId _ _ _ hfind
          set rm : ResultMap := if rm0.properties.isNone = true
            then { rm0 with properties := some (inferProps result pfx) } else rm0 with hrm
          have hrmmid : rm.mapId = mapId := by
            rw [hrm]; split <;> simp [hmid0]
          have hev1 : rmEvolves rm0 rm := by
            rw [hrm]; split
            · exact rmEvolves_infer rm0 _ (by simp_all [Option.isNone_iff_eq_none])
            · exact rmEvolves_refl rm0
          have hm1 : mapsEvolve maps (setMap maps mapId rm) := setMap_evolves hfind hev1
          have hfind1 : findMap (setMap maps mapId rm) mapId = some rm :=
            findMap_setMap_self _ _ _ _ hfind hrmmid
          have hm2 : mapsEvolve (setMap maps mapId rm)
              (setMap (setMap maps mapId rm) mapId (getIdProperty rm).2) :=
            setMap_evolves hfind1 (rmEvolves_getIdProperty rm)
          cases hA : injectAssociations n result rm.associations
              (copyProperties (rm.properties.getD []) result pfx
                (copyIdFields (getIdProperty rm).1 result pfx o))
              (setMap (setMap maps mapId rm) mapId (getIdProperty rm).2) with
          | none => rw [hA] at h; cases h
          | some p =>
            rw [hA] at h
            simp only at h
            obtain ⟨o1, maps1⟩ := p
            have e1 := ihAs _ _ _ _ _ hA
            have e2 := ihCs _ _ _ _ _ h
            exact mapsEvolve_trans (mapsEvolve_trans hm1 hm2) (mapsEvolve_trans e1 e2)
      · -- injectAssociations
        intro result l o maps r h
        cases l with
        | nil =>
            simp only [injectAssociations] at h
            cases h
            exact mapsEvolve_refl maps
        | cons a rest =>
          simp only [injectAssociations] at h
          cases hA : injectAssociation n result a o maps with
          | none => rw [hA] at h; cases h
          | some p =>
            rw [hA] at h
            simp only at h
            obtain ⟨o1, maps1⟩ := p
            exact mapsEvolve_trans (ihA _ _ _ _ _ hA) (ihAs _ _ _ _ _ h)
      · -- injectAssociation
        intro result a o maps r h
        simp only [injectAssociation] at h
        by_cases ht : truthy (objGet o a.name) = true
        · rw [if_pos ht] at h
          cases hv : objGet o a.name with
          | obj ao =>
              rw [hv] at h
              simp only at h
              cases hI : injectResultInObject n result ao maps a.mapId a.columnPfx with
              | none => rw [hI] at h; cases h
              | some p =>
                rw [hI] at h
                simp only at h
                obtain ⟨ao1, maps1⟩ := p
                cases h
                exact ihO _ _ _ _ _ (ao1, maps1) hI
          | null => rw [hv] at h; cases h
          | undef => rw [hv] at h; cases h
          | str s => rw [hv] at h; cases h
          | num m => rw [hv] at h; cases h
          | bool b => rw [hv] at h; cases h
          | arr l => rw [hv] at h; cases h
        · rw [if_neg ht] at h
          cases hfind : findMap maps a.mapId with
          | none => rw [hfind] at h; cases h
          | some arm =>
            rw [hfind] at h
            simp only at h
            have harmid : arm.mapId = a.mapId := findMap_some_mapId _ _ _ hfind
            have hm1 : mapsEvolve maps (setMap maps a.mapId (getIdProperty arm).2) :=
              setMap_evolves hfind (rmEvolves_getIdProperty arm)
            by_cases hall : ((getIdProperty arm).1.all
                (fun fp => !(objGet result (a.columnPfx ++ fp.column)).isNull)) = true
            · rw [if_pos hall] at h
              cases hI : injectResultInObject n result (createMappedObject (getIdProperty arm).2)
                  (setMap maps a.mapId (getIdProperty arm).2) a.mapId a.columnPfx with
              | none => rw [hI] at h; cases h
              | some p =>
                rw [hI] at h
                simp only at h
                obtain ⟨ao1, maps1⟩ := p
                cases h
                exact mapsEvolve_trans hm1 (ihO _ _ _ _ _ (ao1, maps1) hI)
            · rw [if_neg hall] at h
              cases h
              exact hm1
      · -- injectCollections
        intro result l o maps r h
        cases l with
        | nil =>
            simp only [injectCollections] at h
            cases h
            exact mapsEvolve_refl maps
        | cons c rest =>
          simp only [injectCollections] at h
          cases hC : injectCollectionField n result c o maps with
          | none => rw [hC] at h; cases h
          | some p =>
            rw [hC] at h
            simp only at h
            obtain ⟨o1, maps1⟩ := p
            exact mapsEvolve_trans (ihC _ _ _ _ _ hC) (ihCs _ _ _ _ _ h)
      · -- injectCollectionField
        intro result c o maps r h
        simp only [injectCollectionField] at h
        by_cases ht : truthy (objGet o c.name) = true
        · rw [if_pos ht] at h
          cases hv : objGet o c.name with
          | arr items =>
              rw [hv] at h
              simp only at h
              cases hI : injectResultInCollection n result items maps c.mapId c.columnPfx with
              | none => rw [hI] at h; cases h
              | some p =>
                rw [hI] at h
                simp only at h
                obtain ⟨items1, maps1⟩ := p
                cases h
                exact ihColl _ _ _ _ _ (items1, maps1) hI
          | null => rw [hv] at h; cases h
          | undef => rw [hv] at h; cases h
          | str s => rw [hv] at h; cases h
          | num m => rw [hv] at h; cases h
          | bool b => rw [hv] at h; cases h
          | obj oo => rw [hv] at h; cases h
        · rw [if_neg ht] at h
          cases hI : injectResultInCollection n result [] maps c.mapId c.columnPfx with
          | none => rw [hI] at h; cases h
          | some p =>
            rw [hI] at h
            simp only at h
            obtain ⟨items1, maps1⟩ := p
            cases h
            exact ihColl _ _ _ _ _ (items1, maps1) hI
      · -- injectResultInCollection
        intro result coll maps mapId pfx r h
        simp only [injectResultInCollection] at h
        cases hfind : findMap maps mapId with
        | none => rw [hfind] at h; cases h
        | some rm =>
          rw [hfind] at h
          simp only at h
          have hmid : rm.mapId = mapId := findMap_some_mapId _ _ _ hfind
          have hm1 : mapsEvolve maps (setMap maps mapId (getIdProperty rm).2) :=
            setMap_evolves hfind (rmEvolves_getIdProperty rm)
          by_cases hall : ((getIdProperty rm).1.all
              (fun fp => !(objGet result (pfx ++ fp.column)).isNull)) = true
          · rw [if_pos hall] at h
            cases hM : findMatch (buildPredicate (getIdProperty rm).1 result pfx) coll with
            | some io =>
                rw [hM] at h
                simp only at h
                cases hI : injectResultInObject n result io.2
                    (setMap maps mapId (getIdProperty rm).2) mapId pfx with
                | none => rw [hI] at h; cases h
                | some p =>
                  rw [hI] at h
                  simp only at h
                  obtain ⟨o1, maps1⟩ := p
                  cases h
                  exact mapsEvolve_trans hm1 (ihO _ _ _ _ _ (o1, maps1) hI)
            | none =>
                rw [hM] at h
                simp only at h
                cases hI : injectResultInObject n result
                    (createMappedObject (getIdProperty rm).2)
                    (setMap maps mapId (getIdProperty rm).2) mapId pfx with
                | none => rw [hI] at h; cases h
                | some p =>
                  rw [hI] at h
                  simp only at h
                  obtain ⟨o1, maps1⟩ := p
                  cases h
                  exact mapsEvolve_trans hm1 (ihO _ _ _ _ _ (o1, maps1) hI)
          · rw [if_neg hall] at h
            cases h
            exact hm1

/-! ### Preservation of already-populated (truthy) fields -/

theorem copyIdFields_preserve (idp : List FieldPair) (result : Row) (pfx : String)
    (o : JObj) (nm : String) (h : truthy (objGet o nm) = true) :
    objGet (copyIdFields idp result pfx o) nm = objGet o nm := by
  induction idp generalizing o with
  | nil => rfl
  | cons fp rest ih =>
      simp only [copyIdFields, List.foldl_cons] at *
      by_cases ht : truthy (objGet o fp.name) = true
      · rw [if_pos ht]
        exact ih o h
      · rw [if_neg ht]
        by_cases hnm : fp.name = nm
        · subst hnm; exact absurd h ht
        · rw [ih _ (by rwa [objGet_objSet_ne _ _ _ _ hnm]),
            objGet_objSet_ne _ _ _ _ hnm]

theorem copyProperties_preserve (ps : List PropEntry) (result : Row) (pfx : String)
    (o : JObj) (nm : String) (h : truthy (objGet o nm) = true) :
    objGet (copyProperties ps result pfx o) nm = objGet o nm := by
  induction ps generalizing o with
  | nil => rfl
  | cons p rest ih =>
      simp only [copyProperties, List.foldl_cons] at *
      by_cases ht : truthy (objGet o (normPropLocal p).1) = true
      · rw [if_pos ht]
        exact ih o h
      · rw [if_neg ht]
        by_cases hnm : (normPropLocal p).1 = nm
        · subst hnm; exact absurd h ht
        · rw [ih _ (by rwa [objGet_objSet_ne _ _ _ _ hnm]),
            objGet_objSet_ne _ _ _ _ hnm]

theorem copyIdFields_notin (idp : List FieldPair) (result : Row) (pfx : String)
    (o : JObj) (nm : String) (h : ∀ fp ∈ idp, fp.name ≠ nm) :
    objGet (copyIdFields idp result pfx o) nm = objGet o nm := by
  induction idp generalizing o with
  | nil => rfl
  | cons fp rest ih =>
      simp only [copyIdFields, List.foldl_cons] at *
      have hne : fp.name ≠ nm := h fp (List.mem_cons_self _ _)
      by_cases ht : truthy (objGet o fp.name) = true
      · rw [if_pos ht]
        exact ih o (fun q hq => h q (List.mem_cons_of_mem _ hq))
      · rw [if_neg ht, ih _ (fun q hq => h q (List.mem_cons_of_mem _ hq)), objGet_objSet_ne _ _ _ _ hne]

theorem copyProperties_notin (ps : List PropEntry) (result : Row) (pfx : String)
    (o : JObj) (nm : String) (h : ∀ p ∈ ps, (normPropLocal p).1 ≠ nm) :
    objGet (copyProperties ps result pfx o) nm = objGet o nm := by
  induction ps generalizing o with
  | nil => rfl
  | cons p rest ih =>
      simp only [copyProperties, List.foldl_cons] at *
      have hne : (normPropLocal p).1 ≠ nm := h p (List.mem_cons_self _ _)
      by_cases ht : truthy (objGet o (normPropLocal p).1) = true
      · rw [if_pos ht]
        exact ih o (fun q hq => h q (List.mem_cons_of_mem _ hq))
      · rw [if_neg ht, ih _ (fun q hq => h q (List.mem_cons_of_mem _ hq)), objGet_objSet_ne _ _ _ _ hne]

/-- A field of a mapped object that already holds a truthy scalar value is
never changed by any of the injection functions (first write wins for
populated scalar fields). -/
theorem preserve_funs : ∀ fuel : Nat,
    (∀ result o maps mapId pfx r,
      injectResultInObject fuel result o maps mapId pfx = some r →
      ∀ nm, truthy (objGet o nm) = true → isScalar (objGet o nm) = true →
      objGet r.1 nm = objGet o nm) ∧
    (∀ result l o maps r,
      injectAssociations fuel result l o maps = some r →
      ∀ nm, truthy (objGet o nm) = true → isScalar (objGet o nm) = true →
      objGet r.1 nm = objGet o nm) ∧
    (∀ result a o maps r,
      injectAssociation fuel result a o maps = some r →
      ∀ nm, truthy (objGet o nm) = true → isScalar (objGet o nm) = true →
      objGet r.1 nm = objGet o nm) ∧
    (∀ result l o maps r,
      injectCollections fuel result l o maps = some r →
      ∀ nm, truthy (objGet o nm) = true → isScalar (objGet o nm) = true →
      objGet r.1 nm = objGet o nm) ∧
    (∀ result c o maps r,
      injectCollectionField fuel result c o maps = some r →
      ∀ nm, truthy (objGet o nm) = true → isScalar (objGet o nm) = true →
      objGet r.1 nm = objGet o nm) := by
  intro fuel
  induction fuel with
  | zero =>
      refine ⟨?_, ?_, ?_, ?_, ?_⟩
      · intro result o maps mapId pfx r h; simp [injectResultInObject] at h
      · intro result l o maps r h; simp [injectAssociations] at h
      · intro result a o maps r h; simp [injectAssociation] at h
      · intro result l o maps r h; simp [injectCollections] at h
      · intro result c o maps r h; simp [injectCollectionField] at h
  | succ n ih =>
      obtain ⟨ihO, ihAs, ihA, ihCs, ihC⟩ := ih
      refine ⟨?_, ?_, ?_, ?_, ?_⟩
      · -- injectResultInObject
        intro result o maps mapId pfx r h nm htr hsc
        simp only [injectResultInObject] at h
        cases hfind : findMap maps mapId with
        | none => rw [hfind] at h; cases h
        | some rm0 =>
          rw [hfind] at h
          simp only at h
          set rm : ResultMap := if rm0.properties.isNone = true
            then { rm0 with properties := some (inferProps result pfx) } else rm0 with hrm
          have h1 : objGet (copyIdFields (getIdProperty rm).1 result pfx o) nm = objGet o nm :=
            copyIdFields_preserve _ _ _ _ _ htr
          have h2 : objGet (copyProperties (rm.properties.getD []) result pfx
              (copyIdFields (getIdProperty rm).1 result pfx o)) nm = objGet o nm := by
            rw [copyProperties_preserve _ _ _ _ _ (by rw [h1]; exact htr), h1]
          cases hA : injectAssociations n result rm.associations
              (copyProperties (rm.properties.getD []) result pfx
                (copyIdFields (getIdProperty rm).1 result pfx o))
              (setMap (setMap maps mapId rm) mapId (getIdProperty rm).2) with
          | none => rw [hA] at h; cases h
          | some p =>
            rw [hA] at h
            simp only at h
            obtain ⟨o1, maps1⟩ := p
            have h3 : objGet o1 nm = objGet o nm := by
              rw [ihAs _ _ _ _ (o1, maps1) hA nm (by rw [h2]; exact htr)
                (by rw [h2]; exact hsc), h2]
            have h4 := ihCs _ _ _ _ r h nm (by rw [h3]; exact htr) (by rw [h3]; exact hsc)
            rw [h4, h3]
      · -- injectAssociations
        intro result l o maps r h nm htr hsc
        cases l with
        | nil =>
            simp only [injectAssociations] at h
            cases h
            rfl
        | cons a rest =>
          simp only [injectAssociations] at h
          cases hA : injectAssociation n result a o maps with
          | none => rw [hA] at h; cases h
          | some p =>
            rw [hA] at h
            simp only at h
            obtain ⟨o1, maps1⟩ := p
            have h1 := ihA _ _ _ _ (o1, maps1) hA nm htr hsc
            have h2 := ihAs _ _ _ _ r h nm (by rw [h1]; exact htr) (by rw [h1]; exact hsc)
            rw [h2, h1]
      · -- injectAssociation
        intro result a o maps r h nm htr hsc
        simp only [injectAssociation] at h
        by_cases ht : truthy (objGet o a.name) = true
        · rw [if_pos ht] at h
          cases hv : objGet o a.name with
          | obj ao =>
              rw [hv] at h
              simp only at h
              cases hI : injectResultInObject n result ao maps a.mapId a.columnPfx with
              | none => rw [hI] at h; cases h
              | some p =>
                rw [hI] at h
                simp only at h
                obtain ⟨ao1, maps1⟩ := p
                cases h
                by_cases hnm : a.name = nm
                · subst hnm
                  rw [hv] at hsc
                  simp [isScalar] at hsc
                · simp only
                  rw [objGet_objSet_ne _ _ _ _ hnm]
          | null => rw [hv] at h; cases h
          | undef => rw [hv] at h; cases h
          | str s => rw [hv] at h; cases h
          | num m => rw [hv] at h; cases h
          | bool b => rw [hv] at h; cases h
          | arr items => rw [hv] at h; cases h
        · rw [if_neg ht] at h
          have hnm : a.name ≠ nm := by
            intro hc; subst hc; exact ht htr
          cases hfind : findMap maps a.mapId with
          | none => rw [hfind] at h; cases h
          | some arm =>
            rw [hfind] at h
            simp only at h
            by_cases hall : ((getIdProperty arm).1.all
                (fun fp => !(objGet result (a.columnPfx ++ fp.column)).isNull)) = true
            · rw [if_pos hall] at h
              cases hI : injectResultInObject n result (createMappedObject (getIdProperty arm).2)
                  (setMap maps a.mapId (getIdProperty arm).2) a.mapId a.columnPfx with
              | none => rw [hI] at h; cases h
              | some p =>
                rw [hI] at h
                simp only at h
                obtain ⟨ao1, maps1⟩ := p
                cases h
                simp only
                rw [objGet_objSet_ne _ _ _ _ hnm, objGet_objSet_ne _ _ _ _ hnm]
            · rw [if_neg hall] at h
              cases h
              simp only
              rw [objGet_objSet_ne _ _ _ _ hnm]
      · -- injectCollections
        intro result l o maps r h nm htr hsc
        cases l with
        | nil =>
            simp only [injectCollections] at h
            cases h
            rfl
        | cons c rest =>
          simp only [injectCollections] at h
          cases hC : injectCollectionField n result c o maps with
          | none => rw [hC] at h; cases h
          | some p =>
            rw [hC] at h
            simp only at h
            obtain ⟨o1, maps1⟩ := p
            have h1 := ihC _ _ _ _ (o1, maps1) hC nm htr hsc
            have h2 := ihCs _ _ _ _ r h nm (by rw [h1]; exact htr) (by rw [h1]; exact hsc)
            rw [h2, h1]
      · -- injectCollectionField
        intro result c o maps r h nm htr hsc
        simp only [injectCollectionField] at h
        by_cases ht : truthy (objGet o c.name) = true
        · rw [if_pos ht] at h
          cases hv : objGet o c.name with
          | arr items =>
              rw [hv] at h
              simp only at h
              cases hI : injectResultInCollection n result items maps c.mapId c.columnPfx with
              | none => rw [hI] at h; cases h
              | some p =>
                rw [hI] at h
                simp only at h
                obtain ⟨items1, maps1⟩ := p
                cases h
                by_cases hnm : c.name = nm
                · subst hnm
                  rw [hv] at hsc
                  simp [isScalar] at hsc
                · simp only
                  rw [objGet_objSet_ne _ _ _ _ hnm]
          | null => rw [hv] at h; cases h
          | undef => rw [hv] at h; cases h
          | str s => rw [hv] at h; cases h
          | num m => rw [hv] at h; cases h
          | bool b => rw [hv] at h; cases h
          | obj oo => rw [hv] at h; cases h
        · rw [if_neg ht] at h
          have hnm : c.name ≠ nm := by
            intro hc; subst hc; exact ht htr
          cases hI : injectResultInCollection n result [] maps c.mapId c.columnPfx with
          | none => rw [hI] at h; cases h
          | some p =>
            rw [hI] at h
            simp only at h
            obtain ⟨items1, maps1⟩ := p
            cases h
            simp only
            rw [objGet_objSet_ne _ _ _ _ hnm]

/-! ### Example configurations used by witnesses and counterexamples -/

/-- A mapping definition set with one definition `"m"` using all defaults. -/
def exMapsM : Maps := [{ mapId := "m" }]

/-- `exMapsM` after the lazy property inference has run on a row with columns
`id` and `n`. -/
def exMapsMCached : Maps := [{ mapId := "m", properties := some [.str "id", .str "n"] }]

/-- `exMapsM` after the lazy property inference has run on a row with the
single column `id`. -/
def exMapsMCachedId : Maps := [{ mapId := "m", properties := some [.str "id"] }]

/-- A definition set whose factory pre-populates the identity field. -/
def exMapsF9 : Maps := [{ mapId := "m", createNew := some [("id", .num 9)] }]

def exRowN0 : Row := [("id", .num 1), ("n", .num 0)]
def exRowN5 : Row := [("id", .num 1), ("n", .num 5)]
def exRowId1 : Row := [("id", .num 1)]
def exRowId2 : Row := [("id", .num 2)]
def exObjC1 : JObj := [("id", JVal.num 1), ("n", JVal.num 9)]

/-! ### Claim C1 -/

/-- C1 (counterexample): the claim says a field already populated by an
earlier row of the same identity is never overwritten.  The guard in the
source is JavaScript truthiness, not presence: a field populated with the
falsy value `0` by the first row is overwritten with `5` by the second row
of the same identity key. -/
theorem claim_C1_counterexample :
    (map 4 [exRowN0] exMapsM "m" "").map (fun p => p.1.map (fun o => objGet o "n"))
      = some [JVal.num 0] ∧
    (map 4 [exRowN0, exRowN5] exMapsM "m" "").map (fun p => p.1.map (fun o => objGet o "n"))
      = some [JVal.num 5] ∧
    JVal.num 5 ≠ JVal.num 0 := by
  refine ⟨rfl, rfl, ?_⟩
  intro hc
  simp at hc

/-- C1 (amended): once a field of a mapped object holds a truthy scalar
value (non-null, non-undefined, non-zero, non-empty, non-false), injecting
any further row into that object leaves the field unchanged; a field
holding a falsy value is treated as unset and may be overwritten. -/
theorem claim_C1_amended (fuel : Nat) (result : Row) (o : JObj) (maps : Maps)
    (mapId pfx : String) (o' : JObj) (maps' : Maps) (nm : String)
    (h : injectResultInObject fuel result o maps mapId pfx = some (o', maps'))
    (htr : truthy (objGet o nm) = true) (hsc : isScalar (objGet o nm) = true) :
    objGet o' nm = objGet o nm :=
  (preserve_funs fuel).1 result o maps mapId pfx (o', maps') h nm htr hsc

/-- C1 (witness): re-injecting a row with `n = 5` into an object whose `n`
field already holds the truthy scalar `9` leaves the field at `9`. -/
theorem claim_C1_amended_witness :
    truthy (objGet exObjC1 "n") = true ∧ isScalar (objGet exObjC1 "n") = true ∧
    objGet exObjC1 "n" = objGet exObjC1 "n" :=
  ⟨rfl, rfl,
    claim_C1_amended 3 exRowN5 exObjC1 exMapsM "m" "" exObjC1 exMapsMCached "n" rfl rfl rfl⟩

/-! ### Claim C3 -/

/-- C3: `mapOne` calls `map` on the whole result set; when the mapped
collection is non-empty it returns its first element; when it is empty and
`isRequired` is true it throws a `NotFoundError` whose message is
"EmptyResponse" (the signature has no message parameter, so no caller can
change it; the constructor's "Not Found" default is overridden by the fixed
argument); when empty and not required it returns null. -/
theorem claim_C3 (fuel : Nat) (resultSet : List Row) (maps : Maps) (mapId pfx : String)
    (isRequired : Bool) (r : Except NotFoundError JVal) (m' : Maps)
    (h : mapOne fuel resultSet maps mapId pfx isRequired = some (r, m')) :
    (∃ o rest, map fuel resultSet maps mapId pfx = some (o :: rest, m') ∧ r = .ok (.obj o)) ∨
    (map fuel resultSet maps mapId pfx = some ([], m') ∧
      ((isRequired = true ∧ r = .error ⟨"NotFoundError", "EmptyResponse"⟩) ∨
       (isRequired = false ∧ r = .ok .null))) := by
  unfold mapOne at h
  cases hm : map fuel resultSet maps mapId pfx with
  | none => rw [hm] at h; cases h
  | some p =>
    rw [hm] at h
    obtain ⟨c, m⟩ := p
    cases c with
    | cons o rest =>
        simp only at h
        cases h
        exact Or.inl ⟨o, rest, rfl, rfl⟩
    | nil =>
        simp only at h
        cases isRequired with
        | false =>
            simp only [Bool.false_eq_true, if_false] at h
            cases h
            exact Or.inr ⟨rfl, Or.inr ⟨rfl, rfl⟩⟩
        | true =>
            simp only [if_true] at h
            cases h
            exact Or.inr ⟨rfl, Or.inl ⟨rfl, rfl⟩⟩

/-- C3 (witness): `mapOne` on the empty result set with `isRequired = true`
fails with the `NotFoundError` carrying message "EmptyResponse". -/
theorem claim_C3_witness :
    mapOne 3 [] exMapsM "m" "" true
      = some (.error ⟨"NotFoundError", "EmptyResponse"⟩, exMapsM) ∧
    ((∃ o rest, map 3 [] exMapsM "m" "" = some (o :: rest, exMapsM) ∧
        (Except.error (⟨"NotFoundError", "EmptyResponse"⟩ : NotFoundError)
          : Except NotFoundError JVal) = .ok (.obj o)) ∨
      (map 3 [] exMapsM "m" "" = some ([], exMapsM) ∧
        ((true = true ∧ (Except.error (⟨"NotFoundError", "EmptyResponse"⟩ : NotFoundError)
            : Except NotFoundError JVal) = .error ⟨"NotFoundError", "EmptyResponse"⟩) ∨
         (true = false ∧ (Except.error (⟨"NotFoundError", "EmptyResponse"⟩ : NotFoundError)
            : Except NotFoundError JVal) = .ok .null)))) :=
  ⟨rfl, claim_C3 3 [] exMapsM "m" "" true
    (.error ⟨"NotFoundError", "EmptyResponse"⟩) exMapsM rfl⟩

/-! ### Claim C6 -/

theorem findMatch_lt (predicate : JObj) (coll : List JObj) (i : Nat) (o : JObj)
    (h : findMatch predicate coll = some (i, o)) : i < coll.length := by
  induction coll generalizing i o with
  | nil => cases h
  | cons c rest ih =>
      simp only [findMatch] at h
      split at h
      · cases h; simp
      · cases hr : findMatch predicate rest with
        | none => rw [hr] at h; cases h
        | some p =>
            obtain ⟨j, oo⟩ := p
            rw [hr] at h
            simp only [Option.map] at h
            cases h
            have := ih _ _ hr
            simp only [List.length_cons]
            omega

/-- C6 (counterexample): a later row with an identity key that was already
seen can still be appended as a duplicate member, because the membership
test compares against the member's current identity fields, which a factory
can pre-set to a different value. -/
theorem claim_C6_counterexample :
    (map 4 [exRowId2] exMapsF9 "m" "").map (fun p => p.1.length) = some 1 ∧
    (map 4 [exRowId2, exRowId2] exMapsF9 "m" "").map (fun p => p.1.length) = some 2 :=
  ⟨rfl, rfl⟩

/-- C6 (amended): each row either leaves a collection unchanged, updates one
existing member in place (keeping its position), or appends one new member
at the end.  Hence members appear in first-occurrence order and are never
reordered; a row matching an existing member's identity fields never
duplicates it, but a row whose key was seen before can still append a
duplicate when that member's identity fields hold different values. -/
theorem claim_C6_amended (fuel : Nat) (result : Row) (coll : List JObj) (maps : Maps)
    (mapId pfx : String) (coll' : List JObj) (maps' : Maps)
    (h : injectResultInCollection fuel result coll maps mapId pfx = some (coll', maps')) :
    coll' = coll ∨ (∃ i o, i < coll.length ∧ coll' = coll.set i o) ∨
    (∃ o, coll' = coll ++ [o]) := by
  cases fuel with
  | zero => simp [injectResultInCollection] at h
  | succ n =>
    simp only [injectResultInCollection] at h
    cases hfind : findMap maps mapId with
    | none => rw [hfind] at h; cases h
    | some rm =>
      rw [hfind] at h
      simp only at h
      by_cases hall : ((getIdProperty rm).1.all
          (fun fp => !(objGet result (pfx ++ fp.column)).isNull)) = true
      · rw [if_pos hall] at h
        cases hM : findMatch (buildPredicate (getIdProperty rm).1 result pfx) coll with
        | some io =>
            rw [hM] at h
            simp only at h
            cases hI : injectResultInObject n result io.2
                (setMap maps mapId (getIdProperty rm).2) mapId pfx with
            | none => rw [hI] at h; cases h
            | some p =>
              rw [hI] at h
              simp only at h
              obtain ⟨o1, maps1⟩ := p
              cases h
              exact Or.inr (Or.inl ⟨io.1, o1, findMatch_lt _ _ _ _ hM, rfl⟩)
        | none =>
            rw [hM] at h
            simp only at h
            cases hI : injectResultInObject n result
                (createMappedObject (getIdProperty rm).2)
                (setMap maps mapId (getIdProperty rm).2) mapId pfx with
            | none => rw [hI] at h; cases h
            | some p =>
              rw [hI] at h
              simp only at h
              obtain ⟨o1, maps1⟩ := p
              cases h
              exact Or.inr (Or.inr ⟨o1, rfl⟩)
      · rw [if_neg hall] at h
        cases h
        exact Or.inl rfl

/-- C6 (witness): injecting a row into an empty collection appends one
member. -/
theorem claim_C6_amended_witness :
    injectResultInCollection 3 exRowId1 [] exMapsM "m" ""
      = some ([[("id", JVal.num 1)]], exMapsMCachedId) ∧
    ([[("id", JVal.num 1)]] = ([] : List JObj) ∨
      (∃ i o, i < ([] : List JObj).length ∧ [[("id", JVal.num 1)]] = List.set [] i o) ∨
      (∃ o, [[("id", JVal.num 1)]] = [] ++ [o])) :=
  ⟨rfl, claim_C6_amended 3 exRowId1 [] exMapsM "m" "" [[("id", JVal.num 1)]]
    exMapsMCachedId rfl⟩

/-! ### Claim C7 -/

/-- A definition whose single idProperty pair has no `column`. -/
def exRmObjA : ResultMap := { mapId := "x", idProperty := some (.single (.obj "a" none)) }

/-- C7 (counterexample): resolving the identity key of a definition whose
idProperty pair lacks `column` writes the defaulted column back into the
definition (`idProperty.column = idProperty.name` in the source): the
resolution is not side-effect-free and does modify the mapping
definition. -/
theorem claim_C7_counterexample :
    ((getIdProperty exRmObjA).2).idProperty ≠ exRmObjA.idProperty := by
  decide

/-- C7 (amended): `getIdProperty` normalizes exactly as the claim states —
absent idProperty yields the single pair (id, id), a bare string yields
name = column = that string, an object pair with an absent (or
empty-string, by truthiness) column gets column defaulted to name, an
array is normalized entrywise — and the resolution is idempotent and its
result is a pure function of the definition's idProperty field; but it is
not side-effect-free: the defaulted columns are written back into the
definition's idProperty entries. -/
theorem claim_C7_amended (rm : ResultMap) :
    (rm.idProperty = none → getIdProperty rm = ([⟨"id", "id"⟩], rm)) ∧
    (∀ s, s ≠ "" → rm.idProperty = some (.single (.str s)) →
      (getIdProperty rm).1 = [⟨s, s⟩]) ∧
    (∀ n, rm.idProperty = some (.single (.obj n none)) →
      (getIdProperty rm).1 = [⟨n, n⟩]) ∧
    (∀ n c, c ≠ "" → rm.idProperty = some (.single (.obj n (some c))) →
      (getIdProperty rm).1 = [⟨n, c⟩]) ∧
    (∀ l, rm.idProperty = some (.array l) →
      (getIdProperty rm).1 = l.map (fun p => (normIdEntry p).1)) ∧
    (getIdProperty (getIdProperty rm).2 = getIdProperty rm) ∧
    ((getIdProperty rm).1 = normIdSpec rm.idProperty) := by
  refine ⟨?_, ?_, ?_, ?_, ?_, ?_, ?_⟩
  · intro h
    obtain ⟨mid, idp, props, assocs, colls, cnew⟩ := rm
    simp only at h
    subst h
    rfl
  · intro s hs h
    rw [getIdProperty_eq]
    simp only [normIdSpec, h, idSpecFalsy]
    simp [hs, normIdEntry]
  · intro n h
    rw [getIdProperty_eq]
    simp [normIdSpec, h, idSpecFalsy, normIdEntry]
  · intro n c hc h
    rw [getIdProperty_eq]
    simp [normIdSpec, h, idSpecFalsy, normIdEntry, hc]
  · intro l h
    rw [getIdProperty_eq]
    simp [normIdSpec, h, idSpecFalsy]
  · rw [getIdProperty_eq rm, getIdProperty_eq]
    simp only [(normIdSpec_out_idem rm.idProperty).1, (normIdSpec_out_idem rm.idProperty).2]
  · rw [getIdProperty_eq]

/-- C7 (witness): the normalization rules and idempotence at a concrete
definition whose idProperty pair lacks `column`. -/
theorem claim_C7_amended_witness :
    (getIdProperty exRmObjA).1 = [⟨"a", "a"⟩] ∧
    getIdProperty (getIdProperty exRmObjA).2 = getIdProperty exRmObjA :=
  ⟨(claim_C7_amended exRmObjA).2.2.1 "a" rfl,
   (claim_C7_amended exRmObjA).2.2.2.2.2.1⟩

/-! ### Claim C4 -/

/-- C4: behaviour of one association on one row when the owning object does
not yet hold it (falsy field): if some identity column of the association
(under the association's own columnPrefix) is null, the field is set to
null, no associated object is created and there is no recursion — the
result is exactly the owning object with that one field nulled; if all
identity columns are non-null, a new object is created by the associated
definition's factory, assigned to the field, and recursed into. -/
theorem claim_C4 (fuel : Nat) (result : Row) (a : AssocSpec) (o : JObj) (maps : Maps)
    (arm : ResultMap)
    (hfind : findMap maps a.mapId = some arm)
    (hfalsy : truthy (objGet o a.name) = false) :
    (((getIdProperty arm).1.all
        (fun fp => !(objGet result (a.columnPfx ++ fp.column)).isNull)) = false →
      injectAssociation (fuel + 1) result a o maps
        = some (objSet o a.name .null, setMap maps a.mapId (getIdProperty arm).2)) ∧
    (((getIdProperty arm).1.all
        (fun fp => !(objGet result (a.columnPfx ++ fp.column)).isNull)) = true →
      injectAssociation (fuel + 1) result a o maps
        = (injectResultInObject fuel result (createMappedObject (getIdProperty arm).2)
            (setMap maps a.mapId (getIdProperty arm).2) a.mapId a.columnPfx).map
            (fun p => (objSet (objSet o a.name .null) a.name (.obj p.1), p.2))) := by
  constructor
  · intro hnull
    simp only [injectAssociation, hfalsy, Bool.false_eq_true, if_false]
    rw [hfind]
    simp only [hnull, Bool.false_eq_true, if_false]
  · intro hall
    simp only [injectAssociation, hfalsy, Bool.false_eq_true, if_false]
    rw [hfind]
    simp only [hall, if_true]
    cases hI : injectResultInObject fuel result (createMappedObject (getIdProperty arm).2)
        (setMap maps a.mapId (getIdProperty arm).2) a.mapId a.columnPfx with
    | none => rfl
    | some p => rfl

/-- The association and auxiliary definition used by the C4 witness. -/
def exAssoc : AssocSpec := ⟨"child", "c", "c_"⟩

def exMapsC : Maps := [{ mapId := "c" }]

def exRowCNull : Row := [("c_id", .null)]

/-- C4 (witness): a row whose `c_id` column is null makes the association
field null without creating an object. -/
theorem claim_C4_witness :
    injectAssociation (2 + 1) exRowCNull exAssoc [] exMapsC
      = some (objSet [] exAssoc.name .null,
          setMap exMapsC exAssoc.mapId (getIdProperty { mapId := "c" }).2) :=
  (claim_C4 2 exRowCNull exAssoc [] exMapsC { mapId := "c" } rfl rfl).1 rfl

/-! ### Claim C5 -/

theorem getIdProperty_snd_idem (rm : ResultMap) :
    getIdProperty (getIdProperty rm).2 = getIdProperty rm := by
  rw [getIdProperty_eq rm, getIdProperty_eq]
  simp only [(normIdSpec_out_idem rm.idProperty).1, (normIdSpec_out_idem rm.idProperty).2]

theorem injectResultInCollection_nullId (fuel : Nat) (result : Row) (coll : List JObj)
    (maps : Maps) (mapId pfx : String) (rm : ResultMap)
    (hfind : findMap maps mapId = some rm)
    (hnull : ((getIdProperty rm).1.all
      (fun fp => !(objGet result (pfx ++ fp.column)).isNull)) = false) :
    injectResultInCollection (fuel + 1) result coll maps mapId pfx
      = some (coll, setMap maps mapId (getIdProperty rm).2) := by
  simp only [injectResultInCollection]
  rw [hfind]
  simp only [hnull, Bool.false_eq_true, if_false]

theorem mapRows_nullId (n : Nat) (rows : List Row) (coll : List JObj) (maps : Maps)
    (mapId pfx : String) (rm : ResultMap)
    (hfind : findMap maps mapId = some rm)
    (hfix : getIdProperty rm = ((getIdProperty rm).1, rm))
    (hset : setMap maps mapId rm = maps)
    (hnull : ∀ result ∈ rows, ((getIdProperty rm).1.all
      (fun fp => !(objGet result (pfx ++ fp.column)).isNull)) = false) :
    mapRows (n + 1) rows coll maps mapId pfx = some (coll, maps) := by
  induction rows with
  | nil => rfl
  | cons result rest ih =>
      simp only [mapRows]
      rw [injectResultInCollection_nullId n result coll maps mapId pfx rm hfind
        (hnull result (List.mem_cons_self _ _))]
      have h2 : (getIdProperty rm).2 = rm := by rw [hfix]
      rw [h2, hset]
      exact ih (fun q hq => hnull q (List.mem_cons_of_mem _ hq))

/-- C5: `map` on an empty resultSet returns the empty sequence; a row all of
whose identity columns pass but at least one of which is null injects
nothing into any collection; hence `map` over a resultSet in which every
row has a null value in some identity column of the top-level definition
returns the empty sequence without error — no top-level object is ever
created from a row with a null identity key. -/
theorem claim_C5 (fuel : Nat) (rows : List Row) (maps : Maps) (mapId pfx : String)
    (rm : ResultMap)
    (hfuel : 0 < fuel)
    (hfind : findMap maps mapId = some rm)
    (hnull : ∀ result ∈ rows, ((getIdProperty rm).1.all
      (fun fp => !(objGet result (pfx ++ fp.column)).isNull)) = false) :
    map fuel [] maps mapId pfx = some ([], maps) ∧
    (∀ result ∈ rows, ∀ coll, injectResultInCollection fuel result coll maps mapId pfx
      = some (coll, setMap maps mapId (getIdProperty rm).2)) ∧
    (∃ maps', map fuel rows maps mapId pfx = some ([], maps')) := by
  obtain ⟨n, rfl⟩ : ∃ n, fuel = n + 1 := ⟨fuel - 1, by omega⟩
  refine ⟨rfl, ?_, ?_⟩
  · intro result hres coll
    exact injectResultInCollection_nullId n result coll maps mapId pfx rm hfind
      (hnull result hres)
  · cases rows with
    | nil => exact ⟨maps, rfl⟩
    | cons result rest =>
        refine ⟨setMap maps mapId (getIdProperty rm).2, ?_⟩
        unfold map
        simp only [mapRows]
        rw [injectResultInCollection_nullId n result [] maps mapId pfx rm hfind
          (hnull result (List.mem_cons_self _ _))]
        set rm' : ResultMap := (getIdProperty rm).2 with hrm'
        have hmid : rm'.mapId = mapId := by
          rw [hrm', getIdProperty_eq]
          show rm.mapId = mapId
          exact findMap_some_mapId _ _ _ hfind
        have hfind' : findMap (setMap maps mapId rm') mapId = some rm' :=
          findMap_setMap_self _ _ _ _ hfind hmid
        have hfix' : getIdProperty rm' = ((getIdProperty rm').1, rm') := by
          rw [hrm', getIdProperty_snd_idem rm]
        have hset' : setMap (setMap maps mapId rm') mapId rm' = setMap maps mapId rm' :=
          setMap_findMap_self _ _ _ hfind'
        have hpairs : (getIdProperty rm').1 = (getIdProperty rm).1 := by
          rw [hrm', getIdProperty_snd_idem rm]
        refine mapRows_nullId n rest [] (setMap maps mapId rm') mapId pfx rm' hfind'
          hfix' hset' ?_
        intro q hq
        rw [hpairs]
        exact hnull q (List.mem_cons_of_mem _ hq)

/-- A row whose identity column holds null for the C5 witness. -/
def exRowIdNull : Row := [("id", .null), ("n", .num 3)]

/-- C5 (witness): the empty resultSet and a resultSet whose only row has a
null identity key both map to the empty sequence. -/
theorem claim_C5_witness :
    0 < 2 ∧
    (map 2 [] exMapsM "m" "" = some ([], exMapsM) ∧
      (∀ result ∈ [exRowIdNull], ∀ coll,
        injectResultInCollection 2 result coll exMapsM "m" ""
          = some (coll, setMap exMapsM "m" (getIdProperty { mapId := "m" }).2)) ∧
      (∃ maps', map 2 [exRowIdNull] exMapsM "m" "" = some ([], maps'))) :=
  ⟨by decide,
    claim_C5 2 [exRowIdNull] exMapsM "m" "" { mapId := "m" } (by decide) rfl
      (by intro result hres
          simp only [List.mem_singleton] at hres
          subst hres
          rfl)⟩

/-! ### Claim C10 -/

theorem copyIdFields_get (idp : List FieldPair) (result : Row) (pfx : String)
    (o : JObj) (nm : String) :
    objGet (copyIdFields idp result pfx o) nm = objGet o nm ∨
    ∃ fp, fp ∈ idp ∧ fp.name = nm ∧
      objGet (copyIdFields idp result pfx o) nm = objGet result (pfx ++ fp.column) := by
  induction idp generalizing o with
  | nil => exact Or.inl rfl
  | cons fp rest ih =>
      simp only [copyIdFields, List.foldl_cons] at *
      by_cases ht : truthy (objGet o fp.name) = true
      · rw [if_pos ht]
        rcases ih o with h | ⟨fq, hmem, hname, heq⟩
        · exact Or.inl h
        · exact Or.inr ⟨fq, List.mem_cons_of_mem _ hmem, hname, heq⟩
      · rw [if_neg ht]
        rcases ih (objSet o fp.name (objGet result (pfx ++ fp.column))) with h | hr
        · by_cases hnm : fp.name = nm
          · subst hnm
            rw [objGet_objSet_self] at h
            exact Or.inr ⟨fp, List.mem_cons_self _ _, rfl, h⟩
          · rw [objGet_objSet_ne _ _ _ _ hnm] at h
            exact Or.inl h
        · obtain ⟨fq, hmem, hname, heq⟩ := hr
          exact Or.inr ⟨fq, List.mem_cons_of_mem _ hmem, hname, heq⟩

theorem getIdProperty_snd_properties (rm : ResultMap) :
    (getIdProperty rm).2.properties = rm.properties := by rw [getIdProperty_eq]

theorem getIdProperty_snd_associations (rm : ResultMap) :
    (getIdProperty rm).2.associations = rm.associations := by rw [getIdProperty_eq]

theorem getIdProperty_snd_collections (rm : ResultMap) :
    (getIdProperty rm).2.collections = rm.collections := by rw [getIdProperty_eq]

theorem getIdProperty_snd_createNew (rm : ResultMap) :
    (getIdProperty rm).2.createNew = rm.createNew := by rw [getIdProperty_eq]

theorem getIdProperty_snd_mapId (rm : ResultMap) :
    (getIdProperty rm).2.mapId = rm.mapId := by rw [getIdProperty_eq]

theorem getIdProperty_fst_congr (rm rm' : ResultMap)
    (h : rm.idProperty = rm'.idProperty) :
    (getIdProperty rm).1 = (getIdProperty rm').1 := by
  rw [getIdProperty_eq, getIdProperty_eq, h]

/-- C10: only the exact value `null` suppresses object creation.  A row in
which every identity column of the definition is entirely absent (its
lookup yields `undefined`, not `null`) passes the `!== null` check, so an
object IS created for it — with `undefined` identity fields — instead of
being skipped or set to null.  (Stated for a definition with inferred
properties, no nested associations or collections, the default factory,
and identity names not clashing with inferred property names.) -/
theorem claim_C10 (fuel : Nat) (result : Row) (maps : Maps) (mapId pfx : String)
    (rm : ResultMap)
    (hfind : findMap maps mapId = some rm)
    (hprops : rm.properties = none) (hassoc : rm.associations = [])
    (hcoll : rm.collections = []) (hnew : rm.createNew = none)
    (hundef : ∀ fp ∈ (getIdProperty rm).1, objGet result (pfx ++ fp.column) = .undef)
    (hnames : ∀ fp ∈ (getIdProperty rm).1, ∀ p ∈ inferProps result pfx,
      (normPropLocal p).1 ≠ fp.name) :
    ∃ o maps', injectResultInCollection (fuel + 3) result [] maps mapId pfx
        = some ([o], maps') ∧
      (∀ fp ∈ (getIdProperty rm).1, objGet o fp.name = .undef) := by
  have hmid : rm.mapId = mapId := findMap_some_mapId _ _ _ hfind
  have hrm2mid : (getIdProperty rm).2.mapId = mapId := by
    rw [getIdProperty_snd_mapId]; exact hmid
  have hfind1 : findMap (setMap maps mapId (getIdProperty rm).2) mapId
      = some (getIdProperty rm).2 :=
    findMap_setMap_self _ _ _ _ hfind hrm2mid
  have hpairs : (getIdProperty ({ (getIdProperty rm).2 with
      properties := some (inferProps result pfx) } : ResultMap)).1
      = (getIdProperty rm).1 := by
    rw [getIdProperty_fst_congr ({ (getIdProperty rm).2 with
        properties := some (inferProps result pfx) } : ResultMap) (getIdProperty rm).2 rfl]
    rw [getIdProperty_eq rm, getIdProperty_eq]
    exact (normIdSpec_out_idem rm.idProperty).1
  have hall : ((getIdProperty rm).1.all
      (fun fp => !(objGet result (pfx ++ fp.column)).isNull)) = true := by
    rw [List.all_eq_true]
    intro fp hfp
    rw [hundef fp hfp]
    rfl
  have hcm : createMappedObject (getIdProperty rm).2 = [] := by
    unfold createMappedObject
    rw [getIdProperty_snd_createNew, hnew]
    rfl
  have hobj : ∃ m', injectResultInObject (fuel + 2) result []
      (setMap maps mapId (getIdProperty rm).2) mapId pfx
      = some (copyProperties (inferProps result pfx) result pfx
          (copyIdFields (getIdProperty ({ (getIdProperty rm).2 with
            properties := some (inferProps result pfx) } : ResultMap)).1 result pfx []),
        m') := ⟨_, by
    rw [show (fuel + 2) = (fuel + 1) + 1 from rfl]
    simp only [injectResultInObject]
    rw [hfind1]
    simp only [getIdProperty_snd_properties, hprops, Option.isNone_none, if_pos,
      getIdProperty_snd_associations, getIdProperty_snd_collections, hassoc, hcoll,
      Option.getD]
    simp only [injectAssociations, injectCollections]
    rfl⟩
  obtain ⟨m', hobj⟩ := hobj
  refine ⟨copyProperties (inferProps result pfx) result pfx
      (copyIdFields (getIdProperty ({ (getIdProperty rm).2 with
        properties := some (inferProps result pfx) } : ResultMap)).1 result pfx []),
    m', ?_, ?_⟩
  · rw [show (fuel + 3) = (fuel + 2) + 1 from rfl]
    simp only [injectResultInCollection]
    rw [hfind]
    simp only [hall, if_pos, findMatch]
    rw [hcm, hobj]
    rfl
  · intro fp hfp
    rw [hpairs]
    rw [copyProperties_notin _ _ _ _ _ (fun p hp => hnames fp hfp p hp)]
    rcases copyIdFields_get (getIdProperty rm).1 result pfx [] fp.name with h | hr
    · exact h
    · obtain ⟨fq, hqmem, hqname, heq⟩ := hr
      rw [heq]
      exact hundef fq hqmem

/-- The row for the C10 witness: no `id` column at all. -/
def exRowNoId : Row := [("n", .num 3)]

/-- C10 (witness): a row with no `id` column creates an object whose `id`
field is `undefined` (the `!== null` check passes on `undefined`). -/
theorem claim_C10_witness :
    ∃ o maps', injectResultInCollection (1 + 3) exRowNoId [] exMapsM "m" ""
        = some ([o], maps') ∧
      (∀ fp ∈ (getIdProperty { mapId := "m" }).1, objGet o fp.name = .undef) :=
  claim_C10 1 exRowNoId exMapsM "m" "" { mapId := "m" } rfl rfl rfl rfl rfl
    (by intro fp hfp
        rw [show (getIdProperty ({ mapId := "m" } : ResultMap)).1 = [⟨"id", "id"⟩] from rfl]
          at hfp
        simp only [List.mem_singleton] at hfp
        subst hfp
        rfl)
    (by intro fp hfp p hp
        rw [show (getIdProperty ({ mapId := "m" } : ResultMap)).1 = [⟨"id", "id"⟩] from rfl]
          at hfp
        rw [show inferProps exRowNoId "" = [.str "n"] from rfl] at hp
        simp only [List.mem_singleton] at hfp hp
        subst hfp
        subst hp
        decide)

/-! ### Claim C8 -/

theorem props_stable_of_evolve {a b : Maps} (h : mapsEvolve a b) (mid : String)
    (rm : ResultMap) (l : List PropEntry)
    (hfind : findMap a mid = some rm) (hl : rm.properties = some l) :
    ∃ rm', findMap b mid = some rm' ∧ rm'.properties = some l := by
  obtain ⟨rm', hf', hev⟩ := (findMap_evolve h mid).2 rm hfind
  refine ⟨rm', hf', ?_⟩
  rcases hev.2.2.2.2.2 with hp | hp
  · rw [hp, hl]
  · rw [hl] at hp
    cases hp.1

/-- C8: when the definition has no `properties`, the first injection infers
them from the row (columns starting with the active columnPrefix, prefix
stripped, used as both name and column) and writes the list back onto the
definition, where it persists through the rest of the call; when the
definition already has `properties = l` — in particular, a previously
cached list — the injection keeps `l` on the definition and its
property-copy phase uses exactly `l` (no re-inference), as the unfolding
equation in the last conjunct shows. -/
theorem claim_C8 (fuel : Nat) (result : Row) (o : JObj) (maps : Maps)
    (mapId pfx : String) (o' : JObj) (maps' : Maps) (rm : ResultMap)
    (hfind : findMap maps mapId = some rm)
    (h : injectResultInObject (fuel + 1) result o maps mapId pfx = some (o', maps')) :
    (rm.properties = none →
      ∃ rm', findMap maps' mapId = some rm' ∧
        rm'.properties = some (inferProps result pfx)) ∧
    (∀ l, rm.properties = some l →
      ∃ rm', findMap maps' mapId = some rm' ∧ rm'.properties = some l) ∧
    (∀ l, rm.properties = some l →
      injectResultInObject (fuel + 1) result o maps mapId pfx
        = match injectAssociations fuel result rm.associations
              (copyProperties l result pfx (copyIdFields (getIdProperty rm).1 result pfx o))
              (setMap (setMap maps mapId rm) mapId (getIdProperty rm).2) with
          | none => none
          | some p => injectCollections fuel result rm.collections p.1 p.2) := by
  have hmid : rm.mapId = mapId := findMap_some_mapId _ _ _ hfind
  refine ⟨?_, ?_, ?_⟩
  · intro hnone
    simp only [injectResultInObject] at h
    rw [hfind] at h
    simp only [hnone, Option.isNone_none, if_pos] at h
    set rm3 : ResultMap := { rm with properties := some (inferProps result pfx) } with hrm3
    have hrm3mid : rm3.mapId = mapId := hmid
    have hrm3props : rm3.properties = some (inferProps result pfx) := rfl
    have hrm4 : (getIdProperty rm3).2.properties = some (inferProps result pfx) := by
      rw [getIdProperty_snd_properties]
    have hrm4mid : (getIdProperty rm3).2.mapId = mapId := by
      rw [getIdProperty_snd_mapId]; exact hrm3mid
    have hfind3 : findMap (setMap maps mapId rm3) mapId = some rm3 :=
      findMap_setMap_self _ _ _ _ hfind hrm3mid
    have hfind4 : findMap (setMap (setMap maps mapId rm3) mapId (getIdProperty rm3).2) mapId
        = some (getIdProperty rm3).2 :=
      findMap_setMap_self _ _ _ _ hfind3 hrm4mid
    cases hA : injectAssociations fuel result rm3.associations
        (copyProperties (rm3.properties.getD []) result pfx
          (copyIdFields (getIdProperty rm3).1 result pfx o))
        (setMap (setMap maps mapId rm3) mapId (getIdProperty rm3).2) with
    | none => rw [hA] at h; cases h
    | some p =>
      rw [hA] at h
      simp only at h
      obtain ⟨o1, maps1⟩ := p
      have e1 := (evolve_funs fuel).2.1 _ _ _ _ _ hA
      have e2 := (evolve_funs fuel).2.2.2.1 _ _ _ _ (o', maps') h
      exact props_stable_of_evolve (mapsEvolve_trans e1 e2) mapId
        (getIdProperty rm3).2 _ hfind4 hrm4
  · intro l hl
    simp only [injectResultInObject] at h
    rw [hfind] at h
    simp only [hl, Option.isNone_some, Bool.false_eq_true, if_false, Option.getD] at h
    have hrm2props : (getIdProperty rm).2.properties = some l := by
      rw [getIdProperty_snd_properties]; exact hl
    have hrm2mid : (getIdProperty rm).2.mapId = mapId := by
      rw [getIdProperty_snd_mapId]; exact hmid
    have hfind2 : findMap (setMap maps mapId rm) mapId = some rm :=
      findMap_setMap_self _ _ _ _ hfind hmid
    have hfind3 : findMap (setMap (setMap maps mapId rm) mapId (getIdProperty rm).2) mapId
        = some (getIdProperty rm).2 :=
      findMap_setMap_self _ _ _ _ hfind2 hrm2mid
    cases hA : injectAssociations fuel result rm.associations
        (copyProperties l result pfx
          (copyIdFields (getIdProperty rm).1 result pfx o))
        (setMap (setMap maps mapId rm) mapId (getIdProperty rm).2) with
    | none => rw [hA] at h; cases h
    | some p =>
      rw [hA] at h
      simp only at h
      obtain ⟨o1, maps1⟩ := p
      have e1 := (evolve_funs fuel).2.1 _ _ _ _ _ hA
      have e2 := (evolve_funs fuel).2.2.2.1 _ _ _ _ (o', maps') h
      exact props_stable_of_evolve (mapsEvolve_trans e1 e2) mapId
        (getIdProperty rm).2 _ hfind3 hrm2props
  · intro l hl
    simp only [injectResultInObject]
    rw [hfind]
    simp only [hl, Option.isNone_some, Bool.false_eq_true, if_false, Option.getD]
    cases hA : injectAssociations fuel result rm.associations
        (copyProperties l result pfx (copyIdFields (getIdProperty rm).1 result pfx o))
        (setMap (setMap maps mapId rm) mapId (getIdProperty rm).2) with
    | none => rfl
    | some p =>
        obtain ⟨o1, maps1⟩ := p
        rfl

/-- C8 (witness): injecting a row into the definition with unset properties
caches the inferred list on the definition. -/
theorem claim_C8_witness :
    ∃ rm', findMap exMapsMCached "m" = some rm' ∧
      rm'.properties = some (inferProps exRowN5 "") :=
  (claim_C8 2 exRowN5 [] exMapsM "m" "" [("id", JVal.num 1), ("n", JVal.num 5)]
    exMapsMCached { mapId := "m" } rfl rfl).1 rfl

/-! ### Claim C2: identity tuples and the membership predicate -/

/-- The identity-value tuple a mapped object currently carries. -/
def objTuple (idp : List FieldPair) (o : JObj) : List JVal :=
  idp.map (fun fp => objGet o fp.name)

/-- The identity-value tuple of a row under a column prefix. -/
def idTuple (idp : List FieldPair) (pfx : String) (result : Row) : List JVal :=
  idp.map (fun fp => objGet result (pfx ++ fp.column))

theorem list_map_eq_iff {α β : Type} (l : List α) (f g : α → β) :
    l.map f = l.map g ↔ ∀ x ∈ l, f x = g x := by
  induction l with
  | nil => simp
  | cons a t ih => simp [ih]

theorem strictEq_iff_of_right_scalar (a b : JVal) (hb : isScalar b = true) :
    strictEq a b = true ↔ a = b := by
  cases a <;> cases b <;> simp_all [strictEq, isScalar]

theorem objSet_append (o : JObj) (k : String) (v : JVal)
    (h : ∀ kv ∈ o, kv.1 ≠ k) : objSet o k v = o ++ [(k, v)] := by
  induction o with
  | nil => rfl
  | cons kv rest ih =>
      simp only [objSet]
      rw [if_neg (h kv (List.mem_cons_self _ _))]
      rw [ih (fun q hq => h q (List.mem_cons_of_mem _ hq))]
      rfl

theorem buildPredicate_go (idp : List FieldPair) (result : Row) (pfx : String)
    (acc : JObj)
    (hdisj : ∀ fp ∈ idp, ∀ kv ∈ acc, kv.1 ≠ fp.name)
    (hnodup : (idp.map FieldPair.name).Nodup) :
    idp.foldl (fun a fp => objSet a fp.name (objGet result (pfx ++ fp.column))) acc
      = acc ++ idp.map (fun fp => (fp.name, objGet result (pfx ++ fp.column))) := by
  induction idp generalizing acc with
  | nil => simp
  | cons fp rest ih =>
      simp only [List.foldl_cons, List.map_cons]
      rw [objSet_append acc fp.name _ (fun kv hkv =>
        hdisj fp (List.mem_cons_self _ _) kv hkv)]
      simp only [List.map_cons, List.nodup_cons] at hnodup
      rw [ih (acc ++ [(fp.name, objGet result (pfx ++ fp.column))]) ?_ hnodup.2]
      · simp
      · intro fq hfq kv hkv
        rcases List.mem_append.1 hkv with hkv | hkv
        · exact hdisj fq (List.mem_cons_of_mem _ hfq) kv hkv
        · simp only [List.mem_singleton] at hkv
          subst hkv
          intro hc
          have hmm : fq.name ∈ List.map FieldPair.name rest := List.mem_map_of_mem _ hfq
          rw [← hc] at hmm
          exact hnodup.1 hmm

theorem buildPredicate_eq (idp : List FieldPair) (result : Row) (pfx : String)
    (hnodup : (idp.map FieldPair.name).Nodup) :
    buildPredicate idp result pfx
      = idp.map (fun fp => (fp.name, objGet result (pfx ++ fp.column))) := by
  unfold buildPredicate
  rw [buildPredicate_go idp result pfx [] (by intro _ _ kv hkv; cases hkv) hnodup]
  rfl

/-- Under distinct identity-field names, an object matches the membership
predicate exactly when its identity fields equal the row's identity values
(given the row values are scalars). -/
theorem predicate_match_iff (idp : List FieldPair) (result : Row) (pfx : String)
    (o : JObj)
    (hnodup : (idp.map FieldPair.name).Nodup)
    (hsc : ∀ fp ∈ idp, isScalar (objGet result (pfx ++ fp.column)) = true) :
    ((buildPredicate idp result pfx).all
      (fun kv => strictEq (objGet o kv.1) kv.2)) = true ↔
    (∀ fp ∈ idp, objGet o fp.name = objGet result (pfx ++ fp.column)) := by
  rw [buildPredicate_eq idp result pfx hnodup]
  rw [List.all_eq_true]
  constructor
  · intro h fp hfp
    have := h _ (List.mem_map_of_mem _ hfp)
    exact (strictEq_iff_of_right_scalar _ _ (hsc fp hfp)).1 this
  · intro h kv hkv
    obtain ⟨fp, hfp, rfl⟩ := List.mem_map.1 hkv
    exact (strictEq_iff_of_right_scalar _ _ (hsc fp hfp)).2 (h fp hfp)

theorem findMatch_none (p : JObj) (coll : List JObj)
    (h : findMatch p coll = none) :
    ∀ o ∈ coll, (p.all (fun kv => strictEq (objGet o kv.1) kv.2)) = false := by
  induction coll with
  | nil => intro o ho; cases ho
  | cons c rest ih =>
      simp only [findMatch] at h
      intro o ho
      by_cases hc : (p.all (fun kv => strictEq (objGet c kv.1) kv.2)) = true
      · rw [if_pos hc] at h; cases h
      · rw [if_neg hc] at h
        rcases List.mem_cons.1 ho with rfl | ho'
        · exact Bool.not_eq_true _ ▸ (by simpa using hc)
        · cases hr : findMatch p rest with
          | none => exact ih hr o ho'
          | some q => rw [hr] at h; cases h

theorem findMatch_mem (p : JObj) (coll : List JObj) (i : Nat) (o : JObj)
    (h : findMatch p coll = some (i, o)) :
    ∃ hi : i < coll.length, coll.get ⟨i, hi⟩ = o ∧
      (p.all (fun kv => strictEq (objGet o kv.1) kv.2)) = true := by
  induction coll generalizing i o with
  | nil => cases h
  | cons c rest ih =>
      simp only [findMatch] at h
      by_cases hc : (p.all (fun kv => strictEq (objGet c kv.1) kv.2)) = true
      · rw [if_pos hc] at h
        cases h
        exact ⟨by simp, rfl, hc⟩
      · rw [if_neg hc] at h
        cases hr : findMatch p rest with
        | none => rw [hr] at h; cases h
        | some q =>
            obtain ⟨j, oo⟩ := q
            rw [hr] at h
            simp only [Option.map] at h
            cases h
            obtain ⟨hj, hget, hmatch⟩ := ih _ _ hr
            exact ⟨by simpa using Nat.succ_lt_succ hj, by simpa using hget, hmatch⟩

theorem copyIdFields_writes (idp : List FieldPair) (result : Row) (pfx : String)
    (o : JObj) (fp : FieldPair)
    (hnodup : (idp.map FieldPair.name).Nodup)
    (hfp : fp ∈ idp)
    (hfal : truthy (objGet o fp.name) = false) :
    objGet (copyIdFields idp result pfx o) fp.name
      = objGet result (pfx ++ fp.column) := by
  induction idp generalizing o with
  | nil => cases hfp
  | cons fq rest ih =>
      simp only [List.map_cons, List.nodup_cons] at hnodup
      rw [show copyIdFields (fq :: rest) result pfx o
          = copyIdFields rest result pfx
            (if truthy (objGet o fq.name) = true then o
             else objSet o fq.name (objGet result (pfx ++ fq.column))) from rfl]
      rcases List.mem_cons.1 hfp with heq | hfp'
      · rw [heq] at hfal ⊢
        rw [if_neg (by rw [hfal]; simp)]
        rw [copyIdFields_notin rest result pfx _ fq.name (fun q hq => by
          intro hc
          exact hnodup.1 (hc ▸ List.mem_map_of_mem _ hq))]
        rw [objGet_objSet_self]
      · have hne : fq.name ≠ fp.name := by
          intro hc
          exact hnodup.1 (by rw [hc]; exact List.mem_map_of_mem _ hfp')
        by_cases ht : truthy (objGet o fq.name) = true
        · rw [if_pos ht]
          exact ih o hnodup.2 hfp' hfal
        · rw [if_neg ht]
          exact ih _ hnodup.2 hfp' (by rwa [objGet_objSet_ne _ _ _ _ hne])

/-- Injecting a row into an object whose identity field is still falsy
writes the row's identity value into it (and nothing later overwrites it,
the value being truthy and scalar). -/
theorem injectObj_idfields (n : Nat) (result : Row) (o : JObj) (maps : Maps)
    (mapId pfx : String) (o' : JObj) (maps' : Maps) (rm0 : ResultMap)
    (hfind : findMap maps mapId = some rm0)
    (hnodup : ((getIdProperty rm0).1.map FieldPair.name).Nodup)
    (h : injectResultInObject (n + 1) result o maps mapId pfx = some (o', maps'))
    (fp : FieldPair) (hfp : fp ∈ (getIdProperty rm0).1)
    (hval : truthy (objGet result (pfx ++ fp.column)) = true)
    (hsc : isScalar (objGet result (pfx ++ fp.column)) = true)
    (hfal : truthy (objGet o fp.name) = false) :
    objGet o' fp.name = objGet result (pfx ++ fp.column) := by
  simp only [injectResultInObject] at h
  rw [hfind] at h
  simp only at h
  set rmI : ResultMap := if rm0.properties.isNone = true
    then { rm0 with properties := some (inferProps result pfx) } else rm0 with hrmI
  have hidp : rmI.idProperty = rm0.idProperty := by
    rw [hrmI]; split <;> rfl
  have hpairs : (getIdProperty rmI).1 = (getIdProperty rm0).1 :=
    getIdProperty_fst_congr _ _ hidp
  have h1 : objGet (copyIdFields (getIdProperty rmI).1 result pfx o) fp.name
      = objGet result (pfx ++ fp.column) := by
    rw [hpairs]
    exact copyIdFields_writes _ _ _ _ _ hnodup hfp hfal
  have h2 : objGet (copyProperties (rmI.properties.getD []) result pfx
      (copyIdFields (getIdProperty rmI).1 result pfx o)) fp.name
      = objGet result (pfx ++ fp.column) := by
    rw [copyProperties_preserve _ _ _ _ _ (by rw [h1]; exact hval), h1]
  cases hA : injectAssociations n result rmI.associations
      (copyProperties (rmI.properties.getD []) result pfx
        (copyIdFields (getIdProperty rmI).1 result pfx o))
      (setMap (setMap maps mapId rmI) mapId (getIdProperty rmI).2) with
  | none => rw [hA] at h; cases h
  | some p =>
    rw [hA] at h
    simp only at h
    obtain ⟨o1, maps1⟩ := p
    have h3 : objGet o1 fp.name = objGet result (pfx ++ fp.column) := by
      rw [(preserve_funs n).2.1 _ _ _ _ (o1, maps1) hA fp.name
        (by rw [h2]; exact hval) (by rw [h2]; exact hsc), h2]
    have h4 := (preserve_funs n).2.2.2.1 _ _ _ _ (o', maps') h fp.name
      (by rw [h3]; exact hval) (by rw [h3]; exact hsc)
    rw [h4, h3]

/-- One row injected into a collection under truthy scalar identity values:
either it merges into the member whose identity fields equal the row's
identity tuple (updated in place, identity fields unchanged), or no member
matches and a fresh object carrying the row's identity tuple is appended. -/
theorem step_C2 (n : Nat) (result : Row) (coll : List JObj) (m : Maps)
    (mapId pfx : String) (rmC : ResultMap) (coll' : List JObj) (m₁ : Maps)
    (idp : List FieldPair)
    (hfindC : findMap m mapId = some rmC)
    (hpair : (getIdProperty rmC).1 = idp)
    (hnewC : rmC.createNew = none)
    (hnodup : (idp.map FieldPair.name).Nodup)
    (hrv : ∀ fp ∈ idp, truthy (objGet result (pfx ++ fp.column)) = true ∧
      isScalar (objGet result (pfx ++ fp.column)) = true)
    (h : injectResultInCollection (n + 1) result coll m mapId pfx = some (coll', m₁)) :
    (∃ i o1, ∃ hi : i < coll.length, coll' = coll.set i o1 ∧
      (∀ fp ∈ idp, objGet o1 fp.name = objGet (coll.get ⟨i, hi⟩) fp.name) ∧
      (∀ fp ∈ idp, objGet (coll.get ⟨i, hi⟩) fp.name
        = objGet result (pfx ++ fp.column))) ∨
    (∃ o1, coll' = coll ++ [o1] ∧
      (∀ fp ∈ idp, objGet o1 fp.name = objGet result (pfx ++ fp.column)) ∧
      (∀ o ∈ coll, ¬ ∀ fp ∈ idp, objGet o fp.name
        = objGet result (pfx ++ fp.column))) := by
  simp only [injectResultInCollection] at h
  rw [hfindC] at h
  simp only [hpair] at h
  have hall : (idp.all (fun fp => !(objGet result (pfx ++ fp.column)).isNull)) = true := by
    rw [List.all_eq_true]
    intro fp hfp
    rw [truthy_not_isNull _ (hrv fp hfp).1]
    rfl
  rw [if_pos hall] at h
  cases hM : findMatch (buildPredicate idp result pfx) coll with
  | some io =>
      rw [hM] at h
      simp only at h
      obtain ⟨hi, hget, hmatch⟩ := findMatch_mem _ _ _ _ hM
      have hfields : ∀ fp ∈ idp, objGet io.2 fp.name
          = objGet result (pfx ++ fp.column) :=
        (predicate_match_iff idp result pfx io.2 hnodup
          (fun fp hfp => (hrv fp hfp).2)).1 hmatch
      cases hI : injectResultInObject n result io.2
          (setMap m mapId (getIdProperty rmC).2) mapId pfx with
      | none => rw [hI] at h; cases h
      | some p =>
        rw [hI] at h
        simp only at h
        obtain ⟨o1, m2⟩ := p
        cases h
        refine Or.inl ⟨io.1, o1, hi, rfl, ?_, ?_⟩
        · intro fp hfp
          rw [hget]
          exact (preserve_funs n).1 _ _ _ _ _ (o1, m2) hI fp.name
            (by rw [hfields fp hfp]; exact (hrv fp hfp).1)
            (by rw [hfields fp hfp]; exact (hrv fp hfp).2)
        · intro fp hfp
          rw [hget]
          exact hfields fp hfp
  | none =>
      rw [hM] at h
      simp only at h
      have hnomatch : ∀ o ∈ coll, ¬ ∀ fp ∈ idp, objGet o fp.name
          = objGet result (pfx ++ fp.column) := by
        intro o ho hc
        have := findMatch_none _ _ hM o ho
        rw [(predicate_match_iff idp result pfx o hnodup
          (fun fp hfp => (hrv fp hfp).2)).2 hc] at this
        cases this
      have hcm : createMappedObject (getIdProperty rmC).2 = [] := by
        unfold createMappedObject
        rw [getIdProperty_snd_createNew, hnewC]
        rfl
      cases hI : injectResultInObject n result (createMappedObject (getIdProperty rmC).2)
          (setMap m mapId (getIdProperty rmC).2) mapId pfx with
      | none => rw [hI] at h; cases h
      | some p =>
        rw [hI] at h
        simp only at h
        obtain ⟨o1, m2⟩ := p
        cases h
        refine Or.inr ⟨o1, rfl, ?_, hnomatch⟩
        obtain ⟨nn, hn⟩ : ∃ nn, n = nn + 1 := by
          cases n with
          | zero => rw [hcm] at hI; simp [injectResultInObject] at hI
          | succ k => exact ⟨k, rfl⟩
        subst hn
        intro fp hfp
        have hmid : rmC.mapId = mapId := findMap_some_mapId _ _ _ hfindC
        have hmid2 : (getIdProperty rmC).2.mapId = mapId := by
          rw [getIdProperty_snd_mapId]; exact hmid
        have hfind2 : findMap (setMap m mapId (getIdProperty rmC).2) mapId
            = some (getIdProperty rmC).2 :=
          findMap_setMap_self _ _ _ _ hfindC hmid2
        have hpair2 : (getIdProperty (getIdProperty rmC).2).1 = idp := by
          rw [getIdProperty_snd_idem, hpair]
        refine injectObj_idfields nn result (createMappedObject (getIdProperty rmC).2)
          _ mapId pfx o1 m2 (getIdProperty rmC).2 hfind2 ?_ hI fp ?_
          (hrv fp hfp).1 (hrv fp hfp).2 ?_
        · rw [hpair2]; exact hnodup
        · rw [hpair2]; exact hfp
        · rw [hcm]; rfl

theorem state_evolve {m m₁ : Maps} {mapId : String} {rmC : ResultMap}
    {idp : List FieldPair}
    (hfind : findMap m mapId = some rmC)
    (hpair : (getIdProperty rmC).1 = idp)
    (hnew : rmC.createNew = none)
    (hev : mapsEvolve m m₁) :
    ∃ rmC', findMap m₁ mapId = some rmC' ∧ (getIdProperty rmC').1 = idp ∧
      rmC'.createNew = none := by
  obtain ⟨rmC', hf, hev'⟩ := (findMap_evolve hev mapId).2 rmC hfind
  refine ⟨rmC', hf, ?_, ?_⟩
  · rw [getIdProperty_eq] at hpair ⊢
    simp only at hpair ⊢
    rcases hev'.2.2.2.2.1 with hi | hi
    · rw [hi]; exact hpair
    · rw [hi, (normIdSpec_out_idem rmC.idProperty).1]; exact hpair
  · rw [hev'.2.2.2.1]; exact hnew

theorem mapRows_C2 (n : Nat) (rows : List Row) (coll : List JObj) (m : Maps)
    (mapId pfx : String) (idp : List FieldPair) (coll' : List JObj) (m₁ : Maps)
    (hnodup : (idp.map FieldPair.name).Nodup)
    (hstate : ∃ rmC, findMap m mapId = some rmC ∧ (getIdProperty rmC).1 = idp ∧
      rmC.createNew = none)
    (hrows : ∀ result ∈ rows, ∀ fp ∈ idp,
      truthy (objGet result (pfx ++ fp.column)) = true ∧
      isScalar (objGet result (pfx ++ fp.column)) = true)
    (hmemInv : ∀ o ∈ coll, ∀ fp ∈ idp, truthy (objGet o fp.name) = true ∧
      isScalar (objGet o fp.name) = true)
    (hPW : List.Pairwise (fun o1 o2 => ¬ ∀ fp ∈ idp,
      objGet o1 fp.name = objGet o2 fp.name) coll)
    (h : mapRows (n + 1) rows coll m mapId pfx = some (coll', m₁)) :
    (∀ o ∈ coll', ∀ fp ∈ idp, truthy (objGet o fp.name) = true ∧
      isScalar (objGet o fp.name) = true) ∧
    List.Pairwise (fun o1 o2 => ¬ ∀ fp ∈ idp,
      objGet o1 fp.name = objGet o2 fp.name) coll' ∧
    (∀ o ∈ coll, ∃ o' ∈ coll', ∀ fp ∈ idp, objGet o' fp.name = objGet o fp.name) ∧
    (∀ result ∈ rows, ∃ o' ∈ coll', ∀ fp ∈ idp,
      objGet o' fp.name = objGet result (pfx ++ fp.column)) := by
  induction rows generalizing coll m with
  | nil =>
      simp only [mapRows] at h
      cases h
      exact ⟨hmemInv, hPW, fun o ho => ⟨o, ho, fun _ _ => rfl⟩,
        fun r hr => absurd hr (List.not_mem_nil _)⟩
  | cons result rest ih =>
      simp only [mapRows] at h
      cases hS : injectResultInCollection (n + 1) result coll m mapId pfx with
      | none => rw [hS] at h; cases h
      | some p =>
        rw [hS] at h
        simp only at h
        obtain ⟨coll₂, m₂⟩ := p
        obtain ⟨rmC, hfindC, hpairC, hnewC⟩ := hstate
        have hev : mapsEvolve m m₂ :=
          (evolve_funs (n + 1)).2.2.2.2.2 _ _ _ _ _ (coll₂, m₂) hS
        have hstate₂ := state_evolve hfindC hpairC hnewC hev
        have hrowvals := hrows result (List.mem_cons_self _ _)
        have hstep := step_C2 n result coll m mapId pfx rmC coll₂ m₂ idp hfindC hpairC
          hnewC hnodup hrowvals hS
        have hrest : ∀ r ∈ rest, ∀ fp ∈ idp,
            truthy (objGet r (pfx ++ fp.column)) = true ∧
            isScalar (objGet r (pfx ++ fp.column)) = true :=
          fun r hr => hrows r (List.mem_cons_of_mem _ hr)
        rcases hstep with ⟨i, o1, hi, hc2, hsame, hrowf⟩ | ⟨o1, hc2, hrowf, hnomatch⟩
        · -- merged into member i, identity fields unchanged
          subst hc2
          have hagree : ∀ (k : Nat) (hk : k < coll.length), ∀ fp ∈ idp,
              objGet ((coll.set i o1).get ⟨k, by simpa using hk⟩) fp.name
                = objGet (coll.get ⟨k, hk⟩) fp.name := by
            intro k hk fp hfp
            by_cases hik : i = k
            · subst hik
              have : (coll.set i o1).get ⟨i, by simpa using hk⟩ = o1 := by
                simp [List.get_eq_getElem, List.getElem_set]
              rw [this, hsame fp hfp]
            · have : (coll.set i o1).get ⟨k, by simpa using hk⟩ = coll.get ⟨k, hk⟩ := by
                simp [List.get_eq_getElem, List.getElem_set, hik]
              rw [this]
          have hmem₂ : ∀ o ∈ coll.set i o1, ∀ fp ∈ idp,
              truthy (objGet o fp.name) = true ∧ isScalar (objGet o fp.name) = true := by
            intro o ho fp hfp
            rcases List.mem_or_eq_of_mem_set ho with ho' | rfl
            · exact hmemInv o ho' fp hfp
            · rw [hsame fp hfp]
              exact hmemInv _ (List.get_mem coll _ _) fp hfp
          have hPW₂ : List.Pairwise (fun o1 o2 => ¬ ∀ fp ∈ idp,
              objGet o1 fp.name = objGet o2 fp.name) (coll.set i o1) := by
            rw [List.pairwise_iff_get] at hPW ⊢
            intro a b hab hcon
            have ha' : (a : Nat) < coll.length := by
              have := a.isLt; simpa using this
            have hb' : (b : Nat) < coll.length := by
              have := b.isLt; simpa using this
            refine hPW ⟨a, ha'⟩ ⟨b, hb'⟩ (by simpa using hab) ?_
            intro fp hfp
            rw [← hagree a ha' fp hfp, ← hagree b hb' fp hfp]
            exact hcon fp hfp
          have hpers₂ : ∀ o ∈ coll, ∃ o' ∈ coll.set i o1, ∀ fp ∈ idp,
              objGet o' fp.name = objGet o fp.name := by
            intro o ho
            obtain ⟨⟨k, hk⟩, hko⟩ := List.mem_iff_get.1 ho
            refine ⟨(coll.set i o1).get ⟨k, by simpa using hk⟩,
              List.get_mem _ _ _, ?_⟩
            intro fp hfp
            rw [hagree k hk fp hfp]
            exact congrArg (fun z => objGet z fp.name) hko
          have hcov₂ : ∃ o' ∈ coll.set i o1, ∀ fp ∈ idp,
              objGet o' fp.name = objGet result (pfx ++ fp.column) := by
            refine ⟨(coll.set i o1).get ⟨i, by simpa using hi⟩, List.get_mem _ _ _, ?_⟩
            intro fp hfp
            rw [hagree i hi fp hfp]
            exact hrowf fp hfp
          obtain ⟨hmemF, hPWF, hpersF, hcovF⟩ :=
            ih (coll.set i o1) m₂ hstate₂ hrest hmem₂ hPW₂ h
          refine ⟨hmemF, hPWF, ?_, ?_⟩
          · intro o ho
            obtain ⟨o2, ho2, heq2⟩ := hpers₂ o ho
            obtain ⟨o3, ho3, heq3⟩ := hpersF o2 ho2
            exact ⟨o3, ho3, fun fp hfp => (heq3 fp hfp).trans (heq2 fp hfp)⟩
          · intro r hr
            rcases List.mem_cons.1 hr with rfl | hr'
            · obtain ⟨o2, ho2, heq2⟩ := hcov₂
              obtain ⟨o3, ho3, heq3⟩ := hpersF o2 ho2
              exact ⟨o3, ho3, fun fp hfp => (heq3 fp hfp).trans (heq2 fp hfp)⟩
            · exact hcovF r hr'
        · -- appended as a new member carrying the row's identity tuple
          subst hc2
          have hmem₂ : ∀ o ∈ coll ++ [o1], ∀ fp ∈ idp,
              truthy (objGet o fp.name) = true ∧ isScalar (objGet o fp.name) = true := by
            intro o ho fp hfp
            rcases List.mem_append.1 ho with ho' | ho'
            · exact hmemInv o ho' fp hfp
            · simp only [List.mem_singleton] at ho'
              subst ho'
              rw [hrowf fp hfp]
              exact hrowvals fp hfp
          have hPW₂ : List.Pairwise (fun o1 o2 => ¬ ∀ fp ∈ idp,
              objGet o1 fp.name = objGet o2 fp.name) (coll ++ [o1]) := by
            rw [List.pairwise_append]
            refine ⟨hPW, List.pairwise_singleton _ _, ?_⟩
            intro o ho o' ho'
            simp only [List.mem_singleton] at ho'
            subst ho'
            intro hcon
            refine hnomatch o ho ?_
            intro fp hfp
            rw [hcon fp hfp]
            exact hrowf fp hfp
          have hpers₂ : ∀ o ∈ coll, ∃ o' ∈ coll ++ [o1], ∀ fp ∈ idp,
              objGet o' fp.name = objGet o fp.name :=
            fun o ho => ⟨o, List.mem_append_left _ ho, fun _ _ => rfl⟩
          have hcov₂ : ∃ o' ∈ coll ++ [o1], ∀ fp ∈ idp,
              objGet o' fp.name = objGet result (pfx ++ fp.column) :=
            ⟨o1, List.mem_append_right _ (List.mem_singleton_self _), hrowf⟩
          obtain ⟨hmemF, hPWF, hpersF, hcovF⟩ :=
            ih (coll ++ [o1]) m₂ hstate₂ hrest hmem₂ hPW₂ h
          refine ⟨hmemF, hPWF, ?_, ?_⟩
          · intro o ho
            obtain ⟨o2, ho2, heq2⟩ := hpers₂ o ho
            obtain ⟨o3, ho3, heq3⟩ := hpersF o2 ho2
            exact ⟨o3, ho3, fun fp hfp => (heq3 fp hfp).trans (heq2 fp hfp)⟩
          · intro r hr
            rcases List.mem_cons.1 hr with rfl | hr'
            · obtain ⟨o2, ho2, heq2⟩ := hcov₂
              obtain ⟨o3, ho3, heq3⟩ := hpersF o2 ho2
              exact ⟨o3, ho3, fun fp hfp => (heq3 fp hfp).trans (heq2 fp hfp)⟩
            · exact hcovF r hr'

/-- A definition set whose factory pre-populates the identity field with 7. -/
def exMapsF7 : Maps := [{ mapId := "m", createNew := some [("id", .num 7)] }]

/-- C2 (counterexample): two identical rows — hence equal idProperty column
tuples — produce TWO objects when the definition's factory pre-sets a
truthy identity field: the merge test compares the member's current
identity field (7, from the factory) with the row value (1) and never
matches, so the rows are not merged into one object. -/
theorem claim_C2_counterexample :
    (map 4 [exRowId1, exRowId1] exMapsF7 "m" "").map (fun p => p.1.length) = some 2 ∧
    (2 : Nat) ≠ 1 :=
  ⟨rfl, by decide⟩

/-- C2 (amended): provided the definition's factory does not pre-populate
fields (default factory), the identity-field names are distinct, and every
row's identity values are truthy scalars, any two rows with equal identity
tuples are merged into exactly one object of the collection: the mapped
collection has pairwise distinct identity tuples and every row's tuple is
carried by exactly one member.  The comparison `item[k] !== predicate[k]`
is strict value equality on each identity field — scalar value equality,
not reference equality (`strictEq` in this file). -/
theorem claim_C2_amended (fuel : Nat) (rows : List Row) (maps : Maps)
    (mapId pfx : String) (rm : ResultMap) (coll : List JObj) (maps' : Maps)
    (hfuel : 0 < fuel)
    (hfind : findMap maps mapId = some rm)
    (hnew : rm.createNew = none)
    (hnodup : (((getIdProperty rm).1).map FieldPair.name).Nodup)
    (hvals : ∀ result ∈ rows, ∀ fp ∈ (getIdProperty rm).1,
      truthy (objGet result (pfx ++ fp.column)) = true ∧
      isScalar (objGet result (pfx ++ fp.column)) = true)
    (h : map fuel rows maps mapId pfx = some (coll, maps')) :
    List.Pairwise (fun o1 o2 =>
      objTuple (getIdProperty rm).1 o1 ≠ objTuple (getIdProperty rm).1 o2) coll ∧
    (∀ result ∈ rows, ∃ o ∈ coll,
      objTuple (getIdProperty rm).1 o = idTuple (getIdProperty rm).1 pfx result) := by
  obtain ⟨n, rfl⟩ : ∃ n, fuel = n + 1 := ⟨fuel - 1, by omega⟩
  unfold map at h
  obtain ⟨hmemF, hPWF, hpersF, hcovF⟩ := mapRows_C2 n rows [] maps mapId pfx
    (getIdProperty rm).1 coll maps' hnodup ⟨rm, hfind, rfl, hnew⟩ hvals
    (fun o ho => absurd ho (List.not_mem_nil _)) List.Pairwise.nil h
  constructor
  · refine hPWF.imp ?_
    intro o1 o2 hne hc
    apply hne
    unfold objTuple at hc
    exact (list_map_eq_iff _ _ _).1 hc
  · intro r hr
    obtain ⟨o, ho, heq⟩ := hcovF r hr
    refine ⟨o, ho, ?_⟩
    unfold objTuple idTuple
    exact (list_map_eq_iff _ _ _).2 heq

/-- C2 (witness): two identical rows with identity value 1 merge into one
object under the default factory. -/
theorem claim_C2_amended_witness :
    List.Pairwise (fun o1 o2 =>
      objTuple (getIdProperty { mapId := "m" }).1 o1
        ≠ objTuple (getIdProperty { mapId := "m" }).1 o2) [[("id", JVal.num 1)]] ∧
    (∀ result ∈ [exRowId1, exRowId1], ∃ o ∈ [[("id", JVal.num 1)]],
      objTuple (getIdProperty { mapId := "m" }).1 o
        = idTuple (getIdProperty { mapId := "m" }).1 "" result) :=
  claim_C2_amended 4 [exRowId1, exRowId1] exMapsM "m" "" { mapId := "m" }
    [[("id", JVal.num 1)]] exMapsMCachedId (by decide) rfl rfl
    (by rw [show (getIdProperty ({ mapId := "m" } : ResultMap)).1
          = [⟨"id", "id"⟩] from rfl]
        decide)
    (by intro r hr fp hfp
        rw [show (getIdProperty ({ mapId := "m" } : ResultMap)).1
          = [⟨"id", "id"⟩] from rfl] at hfp
        simp only [List.mem_singleton] at hfp
        subst hfp
        rcases List.mem_cons.1 hr with rfl | hr'
        · exact ⟨rfl, rfl⟩
        · rcases List.mem_cons.1 hr' with rfl | hr''
          · exact ⟨rfl, rfl⟩
          · cases hr'')
    rfl

/-! ### Claim C9: running `map` twice gives the same object graph

The second run starts from the definitions as mutated by the first run
(inference caches written, idProperty columns defaulted).  The simulation
relation `rmSim Φ` relates a run-1 state to the corresponding run-2 state,
where `Φ` is the property cache of the final run-1 state: the two entries
agree except that a property list unset on the run-1 side may already be
cached (with its final value) on the run-2 side. -/

def rmSim (Φ : String → Option (List PropEntry)) (a b : ResultMap) : Prop :=
  b.mapId = a.mapId ∧ b.associations = a.associations ∧ b.collections = a.collections ∧
  b.createNew = a.createNew ∧
  (b.idProperty = a.idProperty ∨ b.idProperty = normIdSpecOut a.idProperty) ∧
  (b.properties = a.properties ∨ (a.properties = none ∧ b.properties = Φ a.mapId))

def mapsSim (Φ : String → Option (List PropEntry)) (a b : Maps) : Prop :=
  List.Forall₂ (rmSim Φ) a b

/-- `Φ` correctly describes every cached property list of the state. -/
def propsConsistent (Φ : String → Option (List PropEntry)) (m : Maps) : Prop :=
  ∀ mid rm l, findMap m mid = some rm → rm.properties = some l → Φ mid = some l

theorem consistent_mono {Φ : String → Option (List PropEntry)} {a b : Maps}
    (hev : mapsEvolve a b) (hc : propsConsistent Φ b) : propsConsistent Φ a := by
  intro mid rm l hf hl
  obtain ⟨rm', hf', hl'⟩ := props_stable_of_evolve hev mid rm l hf hl
  exact hc mid rm' l hf' hl'

theorem findMap_sim {Φ : String → Option (List PropEntry)} {a b : Maps}
    (h : mapsSim Φ a b) (mid : String) :
    (findMap a mid = none → findMap b mid = none) ∧
    (∀ x, findMap a mid = some x → ∃ y, findMap b mid = some y ∧ rmSim Φ x y) := by
  induction h with
  | nil => exact ⟨fun _ => rfl, fun x hx => by simp [findMap] at hx⟩
  | cons hab h' ih =>
      rename_i x y l1 l2
      by_cases hx : x.mapId = mid
      · have hy : y.mapId = mid := hab.1.trans hx
        constructor
        · intro hn
          unfold findMap at hn
          rw [List.find?_cons_of_pos _ (by simp [hx])] at hn
          cases hn
        · intro z hz
          unfold findMap at hz ⊢
          rw [List.find?_cons_of_pos _ (by simp [hx])] at hz
          rw [List.find?_cons_of_pos _ (by simp [hy])]
          cases hz
          exact ⟨y, rfl, hab⟩
      · have hy : ¬ y.mapId = mid := fun hc => hx (hab.1.symm.trans hc)
        constructor
        · intro hn
          unfold findMap at hn ⊢
          rw [List.find?_cons_of_neg _ (by simp [hx])] at hn
          rw [List.find?_cons_of_neg _ (by simp [hy])]
          exact ih.1 hn
        · intro z hz
          unfold findMap at hz ⊢
          rw [List.find?_cons_of_neg _ (by simp [hx])] at hz
          rw [List.find?_cons_of_neg _ (by simp [hy])]
          exact ih.2 z hz

theorem setMap_sim {Φ : String → Option (List PropEntry)} {a b : Maps}
    (h : mapsSim Φ a b) (mid : String) {x y : ResultMap}
    (hxy : rmSim Φ x y) :
    mapsSim Φ (setMap a mid x) (setMap b mid y) := by
  induction h with
  | nil => exact List.Forall₂.nil
  | cons hab h' ih =>
      rename_i p q l1 l2
      by_cases hp : p.mapId = mid
      · have hq : q.mapId = mid := hab.1.trans hp
        simp only [setMap, beq_iff_eq, hp, hq, if_pos]
        exact List.Forall₂.cons hxy h'
      · have hq : ¬ q.mapId = mid := fun hc => hp (hab.1.symm.trans hc)
        simp only [setMap, beq_iff_eq, hp, hq, if_false]
        exact List.Forall₂.cons hab ih

theorem rmSim_pairs {Φ : String → Option (List PropEntry)} {x y : ResultMap}
    (h : rmSim Φ x y) : (getIdProperty y).1 = (getIdProperty x).1 := by
  rw [getIdProperty_eq, getIdProperty_eq]
  simp only
  rcases h.2.2.2.2.1 with hi | hi
  · rw [hi]
  · rw [hi, (normIdSpec_out_idem x.idProperty).1]

theorem rmSim_getIdProperty {Φ : String → Option (List PropEntry)} {x y : ResultMap}
    (h : rmSim Φ x y) : rmSim Φ (getIdProperty x).2 (getIdProperty y).2 := by
  rw [getIdProperty_eq, getIdProperty_eq]
  obtain ⟨h1, h2, h3, h4, h5, h6⟩ := h
  refine ⟨h1, h2, h3, h4, ?_, h6⟩
  rcases h5 with hi | hi
  · exact Or.inl (by simp only [hi])
  · exact Or.inl (by simp only [hi, (normIdSpec_out_idem x.idProperty).2])

theorem mapRows_evolve (fuel : Nat) (rows : List Row) (coll : List JObj)
    (maps : Maps) (mapId pfx : String) (r : List JObj × Maps)
    (h : mapRows fuel rows coll maps mapId pfx = some r) :
    mapsEvolve maps r.2 := by
  induction rows generalizing coll maps with
  | nil =>
      simp only [mapRows] at h
      cases h
      exact mapsEvolve_refl maps
  | cons result rest ih =>
      simp only [mapRows] at h
      cases hS : injectResultInCollection fuel result coll maps mapId pfx with
      | none => rw [hS] at h; cases h
      | some p =>
        rw [hS] at h
        simp only at h
        obtain ⟨coll₂, m₂⟩ := p
        exact mapsEvolve_trans
          ((evolve_funs fuel).2.2.2.2.2 _ _ _ _ _ (coll₂, m₂) hS) (ih coll₂ m₂ h)

theorem rmSim_infer {Φ : String → Option (List PropEntry)} {rm₁ rm₂ : ResultMap}
    (c : List PropEntry) (h : rmSim Φ rm₁ rm₂)
    (hp : (if rm₂.properties.isNone = true
        then { rm₂ with properties := some c } else rm₂).properties
      = (if rm₁.properties.isNone = true
        then { rm₁ with properties := some c } else rm₁).properties) :
    rmSim Φ (if rm₁.properties.isNone = true
        then { rm₁ with properties := some c } else rm₁)
      (if rm₂.properties.isNone = true
        then { rm₂ with properties := some c } else rm₂) := by
  obtain ⟨h1, h2, h3, h4, h5, h6⟩ := h
  refine ⟨?_, ?_, ?_, ?_, ?_, Or.inl hp⟩ <;>
    split <;> split <;> (first | exact h1 | exact h2 | exact h3 | exact h4 | exact h5)

theorem infer_props_eq {Φ : String → Option (List PropEntry)} {rm₁ rm₂ : ResultMap}
    (c : List PropEntry) (h : rmSim Φ rm₁ rm₂)
    (hnone : rm₁.properties = none → Φ rm₁.mapId = some c) :
    (if rm₂.properties.isNone = true
        then { rm₂ with properties := some c } else rm₂).properties
      = (if rm₁.properties.isNone = true
        then { rm₁ with properties := some c } else rm₁).properties := by
  cases hp₁ : rm₁.properties with
  | some l =>
      have hp₂ : rm₂.properties = some l := by
        rcases h.2.2.2.2.2 with he | ⟨hn, _⟩
        · rw [he, hp₁]
        · rw [hp₁] at hn; cases hn
      simp [hp₁, hp₂]
  | none =>
      have hΦ := hnone hp₁
      rcases h.2.2.2.2.2 with he | ⟨_, hb⟩
      · rw [hp₁] at he
        simp [hp₁, he]
      · rw [hΦ] at hb
        simp [hp₁, hb]

theorem createMappedObject_sim {Φ : String → Option (List PropEntry)} {x y : ResultMap}
    (h : rmSim Φ x y) :
    createMappedObject (getIdProperty y).2 = createMappedObject (getIdProperty x).2 := by
  unfold createMappedObject
  rw [getIdProperty_snd_createNew, getIdProperty_snd_createNew, h.2.2.2.1]

/-- The second-run simulation: a run of any injection function from a
related state (`mapsSim Φ`, with `Φ` consistent with the first run's
output) succeeds with the same mapped objects and leaves related states. -/
theorem sim_funs (Φ : String → Option (List PropEntry)) : ∀ fuel : Nat,
    (∀ result o M₁ mapId pfx o' M₁' M₂,
      injectResultInObject fuel result o M₁ mapId pfx = some (o', M₁') →
      mapsSim Φ M₁ M₂ → propsConsistent Φ M₁' →
      ∃ M₂', injectResultInObject fuel result o M₂ mapId pfx = some (o', M₂') ∧
        mapsSim Φ M₁' M₂') ∧
    (∀ result l o M₁ o' M₁' M₂,
      injectAssociations fuel result l o M₁ = some (o', M₁') →
      mapsSim Φ M₁ M₂ → propsConsistent Φ M₁' →
      ∃ M₂', injectAssociations fuel result l o M₂ = some (o', M₂') ∧
        mapsSim Φ M₁' M₂') ∧
    (∀ result a o M₁ o' M₁' M₂,
      injectAssociation fuel result a o M₁ = some (o', M₁') →
      mapsSim Φ M₁ M₂ → propsConsistent Φ M₁' →
      ∃ M₂', injectAssociation fuel result a o M₂ = some (o', M₂') ∧
        mapsSim Φ M₁' M₂') ∧
    (∀ result l o M₁ o' M₁' M₂,
      injectCollections fuel result l o M₁ = some (o', M₁') →
      mapsSim Φ M₁ M₂ → propsConsistent Φ M₁' →
      ∃ M₂', injectCollections fuel result l o M₂ = some (o', M₂') ∧
        mapsSim Φ M₁' M₂') ∧
    (∀ result c o M₁ o' M₁' M₂,
      injectCollectionField fuel result c o M₁ = some (o', M₁') →
      mapsSim Φ M₁ M₂ → propsConsistent Φ M₁' →
      ∃ M₂', injectCollectionField fuel result c o M₂ = some (o', M₂') ∧
        mapsSim Φ M₁' M₂') ∧
    (∀ result coll M₁ mapId pfx coll' M₁' M₂,
      injectResultInCollection fuel result coll M₁ mapId pfx = some (coll', M₁') →
      mapsSim Φ M₁ M₂ → propsConsistent Φ M₁' →
      ∃ M₂', injectResultInCollection fuel result coll M₂ mapId pfx
          = some (coll', M₂') ∧ mapsSim Φ M₁' M₂') := by
  intro fuel
  induction fuel with
  | zero =>
      refine ⟨?_, ?_, ?_, ?_, ?_, ?_⟩
      · intro result o M₁ mapId pfx o' M₁' M₂ h; simp [injectResultInObject] at h
      · intro result l o M₁ o' M₁' M₂ h; simp [injectAssociations] at h
      · intro result a o M₁ o' M₁' M₂ h; simp [injectAssociation] at h
      · intro result l o M₁ o' M₁' M₂ h; simp [injectCollections] at h
      · intro result c o M₁ o' M₁' M₂ h; simp [injectCollectionField] at h
      · intro result coll M₁ mapId pfx coll' M₁' M₂ h
        simp [injectResultInCollection] at h
  | succ n ih =>
      obtain ⟨ihO, ihAs, ihA, ihCs, ihC, ihColl⟩ := ih
      refine ⟨?_, ?_, ?_, ?_, ?_, ?_⟩
      · -- injectResultInObject
        intro result o M₁ mapId pfx o' M₁' M₂ h hsim hc
        simp only [injectResultInObject] at h ⊢
        cases hfind₁ : findMap M₁ mapId with
        | none => rw [hfind₁] at h; cases h
        | some rm₁ =>
          rw [hfind₁] at h
          simp only at h
          obtain ⟨rm₂, hfind₂, hrsim⟩ := (findMap_sim hsim mapId).2 rm₁ hfind₁
          rw [hfind₂]
          simp only
          have hmid : rm₁.mapId = mapId := findMap_some_mapId _ _ _ hfind₁
          set rmI₁ : ResultMap := if rm₁.properties.isNone = true
            then { rm₁ with properties := some (inferProps result pfx) } else rm₁
            with hrmI₁
          set rmI₂ : ResultMap := if rm₂.properties.isNone = true
            then { rm₂ with properties := some (inferProps result pfx) } else rm₂
            with hrmI₂
          cases hA : injectAssociations n result rmI₁.associations
              (copyProperties (rmI₁.properties.getD []) result pfx
                (copyIdFields (getIdProperty rmI₁).1 result pfx o))
              (setMap (setMap M₁ mapId rmI₁) mapId (getIdProperty rmI₁).2) with
          | none => rw [hA] at h; cases h
          | some pA =>
            rw [hA] at h
            simp only at h
            obtain ⟨oA, mA⟩ := pA
            have evA : mapsEvolve (setMap (setMap M₁ mapId rmI₁) mapId
                (getIdProperty rmI₁).2) mA :=
              (evolve_funs n).2.1 _ _ _ _ (oA, mA) hA
            have evC : mapsEvolve mA M₁' :=
              (evolve_funs n).2.2.2.1 _ _ _ _ (o', M₁') h
            have hnonecase : rm₁.properties = none →
                Φ rm₁.mapId = some (inferProps result pfx) := by
              intro hp₁
              have hImid : rmI₁.mapId = mapId := by
                rw [hrmI₁]; split <;> exact hmid
              have hIprops : rmI₁.properties = some (inferProps result pfx) := by
                rw [hrmI₁, if_pos (by rw [hp₁]; rfl)]
              have hfindI : findMap (setMap M₁ mapId rmI₁) mapId = some rmI₁ :=
                findMap_setMap_self _ _ _ _ hfind₁ hImid
              have hfindB : findMap (setMap (setMap M₁ mapId rmI₁) mapId
                  (getIdProperty rmI₁).2) mapId = some (getIdProperty rmI₁).2 :=
                findMap_setMap_self _ _ _ _ hfindI
                  (by rw [getIdProperty_snd_mapId]; exact hImid)
              obtain ⟨rmF, hfF, hpF⟩ := props_stable_of_evolve
                (mapsEvolve_trans evA evC) mapId (getIdProperty rmI₁).2
                (inferProps result pfx) hfindB
                (by rw [getIdProperty_snd_properties]; exact hIprops)
              rw [hmid]
              exact hc mapId rmF _ hfF hpF
            have hPeq : rmI₂.properties = rmI₁.properties := by
              rw [hrmI₁, hrmI₂]
              exact infer_props_eq _ hrsim hnonecase
            have hSimI : rmSim Φ rmI₁ rmI₂ := by
              rw [hrmI₁, hrmI₂]
              refine rmSim_infer _ hrsim ?_
              rw [← hrmI₁, ← hrmI₂]
              exact hPeq
            have hpairsI : (getIdProperty rmI₂).1 = (getIdProperty rmI₁).1 :=
              rmSim_pairs hSimI
            have hassocEq : rmI₂.associations = rmI₁.associations := hSimI.2.1
            have hcollEq : rmI₂.collections = rmI₁.collections := hSimI.2.2.1
            have simB : mapsSim Φ
                (setMap (setMap M₁ mapId rmI₁) mapId (getIdProperty rmI₁).2)
                (setMap (setMap M₂ mapId rmI₂) mapId (getIdProperty rmI₂).2) :=
              setMap_sim (setMap_sim hsim mapId hSimI) mapId
                (rmSim_getIdProperty hSimI)
            obtain ⟨M₂c, hA₂, simA⟩ := ihAs result rmI₁.associations
              (copyProperties (rmI₁.properties.getD []) result pfx
                (copyIdFields (getIdProperty rmI₁).1 result pfx o))
              _ oA mA _ hA simB (consistent_mono evC hc)
            obtain ⟨M₂', hC₂, simC⟩ := ihCs result rmI₁.collections oA mA o' M₁'
              M₂c h simA hc
            refine ⟨M₂', ?_, simC⟩
            rw [hpairsI, hPeq, hassocEq, hcollEq, hA₂]
            simp only
            exact hC₂
      · -- injectAssociations
        intro result l o M₁ o' M₁' M₂ h hsim hc
        cases l with
        | nil =>
            simp only [injectAssociations] at h ⊢
            cases h
            exact ⟨M₂, rfl, hsim⟩
        | cons a rest =>
          simp only [injectAssociations] at h ⊢
          cases hA : injectAssociation n result a o M₁ with
          | none => rw [hA] at h; cases h
          | some pA =>
            rw [hA] at h
            simp only at h
            obtain ⟨oA, mA⟩ := pA
            have ev : mapsEvolve mA M₁' :=
              (evolve_funs n).2.1 _ _ _ _ (o', M₁') h
            obtain ⟨M₂a, hA₂, simA⟩ := ihA result a o M₁ oA mA M₂ hA hsim
              (consistent_mono ev hc)
            obtain ⟨M₂', hR₂, simR⟩ := ihAs result rest oA mA o' M₁' M₂a h simA hc
            refine ⟨M₂', ?_, simR⟩
            rw [hA₂]
            simp only
            exact hR₂
      · -- injectAssociation
        intro result a o M₁ o' M₁' M₂ h hsim hc
        simp only [injectAssociation] at h ⊢
        by_cases ht : truthy (objGet o a.name) = true
        · rw [if_pos ht] at h ⊢
          cases hv : objGet o a.name with
          | obj ao =>
              rw [hv] at h
              simp only at h ⊢
              cases hI : injectResultInObject n result ao M₁ a.mapId a.columnPfx with
              | none => rw [hI] at h; cases h
              | some pI =>
                rw [hI] at h
                simp only at h
                obtain ⟨ao', mI⟩ := pI
                cases h
                obtain ⟨M₂', hI₂, simI⟩ := ihO result ao M₁ a.mapId a.columnPfx
                  ao' mI M₂ hI hsim hc
                refine ⟨M₂', ?_, simI⟩
                rw [hI₂]
          | null => rw [hv] at h; cases h
          | undef => rw [hv] at h; cases h
          | str s => rw [hv] at h; cases h
          | num m => rw [hv] at h; cases h
          | bool b => rw [hv] at h; cases h
          | arr items => rw [hv] at h; cases h
        · rw [if_neg ht] at h ⊢
          cases hfind₁ : findMap M₁ a.mapId with
          | none => rw [hfind₁] at h; cases h
          | some arm₁ =>
            rw [hfind₁] at h
            simp only at h
            obtain ⟨arm₂, hfind₂, hrsim⟩ := (findMap_sim hsim a.mapId).2 arm₁ hfind₁
            rw [hfind₂]
            simp only
            have hp := rmSim_pairs hrsim
            rw [hp, createMappedObject_sim hrsim]
            have simA : mapsSim Φ (setMap M₁ a.mapId (getIdProperty arm₁).2)
                (setMap M₂ a.mapId (getIdProperty arm₂).2) :=
              setMap_sim hsim a.mapId (rmSim_getIdProperty hrsim)
            by_cases hall : ((getIdProperty arm₁).1.all
                (fun fp => !(objGet result (a.columnPfx ++ fp.column)).isNull)) = true
            · rw [if_pos hall] at h ⊢
              cases hI : injectResultInObject n result
                  (createMappedObject (getIdProperty arm₁).2)
                  (setMap M₁ a.mapId (getIdProperty arm₁).2) a.mapId a.columnPfx with
              | none => rw [hI] at h; cases h
              | some pI =>
                rw [hI] at h
                simp only at h
                obtain ⟨ao', mI⟩ := pI
                cases h
                obtain ⟨M₂', hI₂, simI⟩ := ihO result
                  (createMappedObject (getIdProperty arm₁).2) _ a.mapId a.columnPfx
                  ao' mI _ hI simA hc
                refine ⟨M₂', ?_, simI⟩
                rw [hI₂]
            · rw [if_neg hall] at h ⊢
              cases h
              exact ⟨_, rfl, simA⟩
      · -- injectCollections
        intro result l o M₁ o' M₁' M₂ h hsim hc
        cases l with
        | nil =>
            simp only [injectCollections] at h ⊢
            cases h
            exact ⟨M₂, rfl, hsim⟩
        | cons c rest =>
          simp only [injectCollections] at h ⊢
          cases hC : injectCollectionField n result c o M₁ with
          | none => rw [hC] at h; cases h
          | some pC =>
            rw [hC] at h
            simp only at h
            obtain ⟨oC, mC⟩ := pC
            have ev : mapsEvolve mC M₁' :=
              (evolve_funs n).2.2.2.1 _ _ _ _ (o', M₁') h
            obtain ⟨M₂a, hC₂, simC⟩ := ihC result c o M₁ oC mC M₂ hC hsim
              (consistent_mono ev hc)
            obtain ⟨M₂', hR₂, simR⟩ := ihCs result rest oC mC o' M₁' M₂a h simC hc
            refine ⟨M₂', ?_, simR⟩
            rw [hC₂]
            simp only
            exact hR₂
      · -- injectCollectionField
        intro result c o M₁ o' M₁' M₂ h hsim hc
        simp only [injectCollectionField] at h ⊢
        by_cases ht : truthy (objGet o c.name) = true
        · rw [if_pos ht] at h ⊢
          cases hv : objGet o c.name with
          | arr items =>
              rw [hv] at h
              simp only at h ⊢
              cases hI : injectResultInCollection n result items M₁ c.mapId
                  c.columnPfx with
              | none => rw [hI] at h; cases h
              | some pI =>
                rw [hI] at h
                simp only at h
                obtain ⟨items', mI⟩ := pI
                cases h
                obtain ⟨M₂', hI₂, simI⟩ := ihColl result items M₁ c.mapId c.columnPfx
                  items' mI M₂ hI hsim hc
                refine ⟨M₂', ?_, simI⟩
                rw [hI₂]
          | null => rw [hv] at h; cases h
          | undef => rw [hv] at h; cases h
          | str s => rw [hv] at h; cases h
          | num m => rw [hv] at h; cases h
          | bool b => rw [hv] at h; cases h
          | obj oo => rw [hv] at h; cases h
        · rw [if_neg ht] at h ⊢
          cases hI : injectResultInCollection n result [] M₁ c.mapId c.columnPfx with
          | none => rw [hI] at h; cases h
          | some pI =>
            rw [hI] at h
            simp only at h
            obtain ⟨items', mI⟩ := pI
            cases h
            obtain ⟨M₂', hI₂, simI⟩ := ihColl result [] M₁ c.mapId c.columnPfx
              items' mI M₂ hI hsim hc
            refine ⟨M₂', ?_, simI⟩
            rw [hI₂]
      · -- injectResultInCollection
        intro result coll M₁ mapId pfx coll' M₁' M₂ h hsim hc
        simp only [injectResultInCollection] at h ⊢
        cases hfind₁ : findMap M₁ mapId with
        | none => rw [hfind₁] at h; cases h
        | some rm₁ =>
          rw [hfind₁] at h
          simp only at h
          obtain ⟨rm₂, hfind₂, hrsim⟩ := (findMap_sim hsim mapId).2 rm₁ hfind₁
          rw [hfind₂]
          simp only
          have hp := rmSim_pairs hrsim
          rw [hp, createMappedObject_sim hrsim]
          have simA : mapsSim Φ (setMap M₁ mapId (getIdProperty rm₁).2)
              (setMap M₂ mapId (getIdProperty rm₂).2) :=
            setMap_sim hsim mapId (rmSim_getIdProperty hrsim)
          by_cases hall : ((getIdProperty rm₁).1.all
              (fun fp => !(objGet result (pfx ++ fp.column)).isNull)) = true
          · rw [if_pos hall] at h ⊢
            cases hM : findMatch (buildPredicate (getIdProperty rm₁).1 result pfx)
                coll with
            | some io =>
                rw [hM] at h
                simp only at h ⊢
                cases hI : injectResultInObject n result io.2
                    (setMap M₁ mapId (getIdProperty rm₁).2) mapId pfx with
                | none => rw [hI] at h; cases h
                | some pI =>
                  rw [hI] at h
                  simp only at h
                  obtain ⟨o1, mI⟩ := pI
                  cases h
                  obtain ⟨M₂', hI₂, simI⟩ := ihO result io.2 _ mapId pfx o1 mI _
                    hI simA hc
                  refine ⟨M₂', ?_, simI⟩
                  rw [hI₂]
            | none =>
                rw [hM] at h
                simp only at h ⊢
                cases hI : injectResultInObject n result
                    (createMappedObject (getIdProperty rm₁).2)
                    (setMap M₁ mapId (getIdProperty rm₁).2) mapId pfx with
                | none => rw [hI] at h; cases h
                | some pI =>
                  rw [hI] at h
                  simp only at h
                  obtain ⟨o1, mI⟩ := pI
                  cases h
                  obtain ⟨M₂', hI₂, simI⟩ := ihO result
                    (createMappedObject (getIdProperty rm₁).2) _ mapId pfx o1 mI _
                    hI simA hc
                  refine ⟨M₂', ?_, simI⟩
                  rw [hI₂]
          · rw [if_neg hall] at h ⊢
            cases h
            exact ⟨_, rfl, simA⟩

theorem evolve_mapIds {a b : Maps} (h : mapsEvolve a b) :
    b.map ResultMap.mapId = a.map ResultMap.mapId := by
  induction h with
  | nil => rfl
  | cons hab h' ih => simp [hab.1, ih]

theorem findMap_nodup_get (m : Maps) (hnodup : (m.map ResultMap.mapId).Nodup)
    (i : Nat) (hi : i < m.length) :
    findMap m (m.get ⟨i, hi⟩).mapId = some (m.get ⟨i, hi⟩) := by
  induction m generalizing i with
  | nil => cases hi
  | cons hd tl ih =>
      simp only [List.map_cons, List.nodup_cons] at hnodup
      cases i with
      | zero =>
          unfold findMap
          rw [List.find?_cons_of_pos _ (by simp)]
          rfl
      | succ j =>
          have hj : j < tl.length := by simpa using hi
          have hget : (hd :: tl).get ⟨j + 1, hi⟩ = tl.get ⟨j, hj⟩ := rfl
          rw [hget]
          have hne : hd.mapId ≠ (tl.get ⟨j, hj⟩).mapId := by
            intro hc
            exact hnodup.1 (by rw [hc]; exact List.mem_map_of_mem _ (List.get_mem _ _ _))
          unfold findMap
          rw [List.find?_cons_of_neg _ (by simp only [List.get_eq_getElem] at hne; simp [hne])]
          exact ih hnodup.2 j hj

theorem sim_of_evolve_nodup (maps m₁ : Maps)
    (hnodup : (maps.map ResultMap.mapId).Nodup)
    (hev : mapsEvolve maps m₁) :
    mapsSim (fun mid => match findMap m₁ mid with
      | some rm => rm.properties
      | none => none) maps m₁ := by
  have hlen := List.Forall₂.length_eq hev
  have hnodup₁ : (m₁.map ResultMap.mapId).Nodup := by
    rw [evolve_mapIds hev]; exact hnodup
  rw [mapsSim, List.forall₂_iff_get]
  refine ⟨hlen, ?_⟩
  intro i h₁ h₂
  have hEv := List.Forall₂.get hev h₁ h₂
  obtain ⟨e1, e2, e3, e4, e5, e6⟩ := hEv
  refine ⟨e1, e2, e3, e4, e5, ?_⟩
  rcases e6 with he | ⟨hn, l, hl⟩
  · exact Or.inl he
  · refine Or.inr ⟨hn, ?_⟩
    have hmid : (maps.get ⟨i, h₁⟩).mapId = (m₁.get ⟨i, h₂⟩).mapId := e1.symm
    rw [hmid]
    have hfind := findMap_nodup_get m₁ hnodup₁ i h₂
    simp only [List.get_eq_getElem] at hfind
    simp [hfind]

theorem mapRows_sim (Φ : String → Option (List PropEntry)) (fuel : Nat)
    (rows : List Row) (coll : List JObj) (M₁ M₂ : Maps) (mapId pfx : String)
    (coll' : List JObj) (M₁' : Maps)
    (h : mapRows fuel rows coll M₁ mapId pfx = some (coll', M₁'))
    (hsim : mapsSim Φ M₁ M₂) (hc : propsConsistent Φ M₁') :
    ∃ M₂', mapRows fuel rows coll M₂ mapId pfx = some (coll', M₂') ∧
      mapsSim Φ M₁' M₂' := by
  induction rows generalizing coll M₁ M₂ with
  | nil =>
      simp only [mapRows] at h ⊢
      cases h
      exact ⟨M₂, rfl, hsim⟩
  | cons result rest ih =>
      simp only [mapRows] at h ⊢
      cases hS : injectResultInCollection fuel result coll M₁ mapId pfx with
      | none => rw [hS] at h; cases h
      | some p =>
        rw [hS] at h
        simp only at h
        obtain ⟨coll₂, m₂⟩ := p
        have ev : mapsEvolve m₂ M₁' :=
          mapRows_evolve fuel rest coll₂ m₂ mapId pfx (coll', M₁') h
        obtain ⟨M₂a, hS₂, simS⟩ := (sim_funs Φ fuel).2.2.2.2.2 result coll M₁
          mapId pfx coll₂ m₂ M₂ hS hsim (consistent_mono ev hc)
        obtain ⟨M₂', hR₂, simR⟩ := ih coll₂ m₂ M₂a h simS
        refine ⟨M₂', ?_, simR⟩
        rw [hS₂]
        simp only
        exact hR₂

/-- C9: running `map` twice — the second run starting from the definitions
as mutated by the first run (inference caches present, idProperty columns
defaulted) — produces the same mapped object graph, provided the mapIds of
the definition set are distinct (the data model requires `mapId` to be a
unique key).  The cached property list the second run reuses is exactly
the list the first run inferred at the corresponding call, so every
corresponding injection copies the same fields. -/
theorem claim_C9 (fuel : Nat) (rows : List Row) (maps : Maps) (mapId pfx : String)
    (c₁ : List JObj) (m₁ : Maps) (c₂ : List JObj) (m₂ : Maps)
    (hnodup : (maps.map ResultMap.mapId).Nodup)
    (h1 : map fuel rows maps mapId pfx = some (c₁, m₁))
    (h2 : map fuel rows m₁ mapId pfx = some (c₂, m₂)) :
    c₂ = c₁ := by
  unfold map at h1 h2
  have hev : mapsEvolve maps m₁ :=
    mapRows_evolve fuel rows [] maps mapId pfx (c₁, m₁) h1
  have hcons : propsConsistent (fun mid => match findMap m₁ mid with
      | some rm => rm.properties
      | none => none) m₁ := by
    intro mid rm l hf hl
    simp only
    rw [hf]
    exact hl
  have hsim := sim_of_evolve_nodup maps m₁ hnodup hev
  obtain ⟨M₂', h2', _⟩ := mapRows_sim _ fuel rows [] maps m₁ mapId pfx c₁ m₁
    h1 hsim hcons
  rw [h2'] at h2
  cases h2
  rfl

/-- C9 (witness): a one-row result set mapped twice, the second run starting
from the mutated definitions, gives the same collection. -/
theorem claim_C9_witness :
    (exMapsM.map ResultMap.mapId).Nodup ∧
    ([[("id", JVal.num 1)]] : List JObj) = [[("id", JVal.num 1)]] :=
  ⟨by decide,
    claim_C9 4 [exRowId1] exMapsM "m" "" [[("id", JVal.num 1)]] exMapsMCachedId
      [[("id", JVal.num 1)]] exMapsMCachedId (by decide) rfl rfl⟩

end JoinJS
